import Mathlib

/-!
Shallow embedding of `src/corpus.py` (class `Corpus`) for verification of the
natural-language specification.  Python dicts and Counters are modelled as
association lists `List (String × Nat)` in insertion order; Python dict
assignment is `dictInsert` (overwrite in place, append when fresh), dict
deletion is `removeKey`, and `Counter` addition is `counterAdd`.  Fallible
Python code (raised exceptions) is modelled with `Except`/`Option`.
-/

/-- Membership of a key in an association list (Python `k in d`). -/
def keyMem (d : List (String × Nat)) (k : String) : Bool :=
  d.any (fun p => p.1 == k)

/-- First-match lookup in an association list (Python `d[k]`, as an `Option`). -/
def lookupVal (d : List (String × Nat)) (k : String) : Option Nat :=
  (d.find? (fun p => p.1 == k)).map Prod.snd

/-- Python dict assignment `d[k] = v`: overwrite in place if the key exists,
otherwise append at the end (insertion order). -/
def dictInsert (d : List (String × Nat)) (k : String) (v : Nat) : List (String × Nat) :=
  if keyMem d k then d.map (fun p => if p.1 == k then (p.1, v) else p) else d ++ [(k, v)]

/-- Python dict/Counter deletion `d.pop(k, None)`: remove the key, keep order. -/
def removeKey (d : List (String × Nat)) (k : String) : List (String × Nat) :=
  d.filter (fun p => !(p.1 == k))

/-- Keys of an association list in insertion order (Python `list(d.keys())`). -/
def dictKeys (d : List (String × Nat)) : List String :=
  d.map Prod.fst

/-- Add `v` to the count of `t` (Python `Counter` update of one key). -/
def counterIncr (acc : List (String × Nat)) (t : String) (v : Nat) : List (String × Nat) :=
  if keyMem acc t then acc.map (fun p => if p.1 == t then (p.1, p.2 + v) else p)
  else acc ++ [(t, v)]

/-- Python `Counter(tokens)`: counts with keys in first-occurrence order. -/
def counterOf (tokens : List String) : List (String × Nat) :=
  tokens.foldl (fun acc t => counterIncr acc t 1) []

/-- Python `c += d` on `Counter`s: add `d`'s counts into `c`; keys new to `c`
are appended in `d`'s order.  (All counts here are positive, so the
`_keep_positive` step of `Counter` is a no-op.) -/
def counterAdd (c d : List (String × Nat)) : List (String × Nat) :=
  d.foldl (fun acc p => counterIncr acc p.1 p.2) c

/-- The mutable state of a `Corpus` object.  Python initialises the vocab
fields to `None`; they are modelled by their reset values (`create_vocab`
overwrites them before any use).  The dead field `vocab_freq_dict` (assigned
only in `__init__`, never read) is omitted. -/
structure CorpusState where
  num_documents : Nat := 0
  document_list : List (List (List String)) := []
  num_sequences : Nat := 0
  num_tokens : Nat := 0
  num_types : Nat := 0
  type_list : List String := []
  type_index_dict : List (String × Nat) := []
  type_freq_dict : List (String × Nat) := []
  vocab_size : Nat := 0
  vocab_list : List String := []
  vocab_index_dict : List (String × Nat) := []
  unknown_token : Option String := none
  deriving Repr, DecidableEq

/-- The freshly constructed corpus (`Corpus.__init__`). -/
def initCorpus : CorpusState := {}

/-- Modelled from the spec: the external `Document` collaborator's frequency
table — per-document type-frequency counts of the flattened token sequence
(`document.py` is not part of the given sources). -/
def documentFreq (doc : List (List String)) : List (String × Nat) :=
  counterOf doc.flatten

/-- Modelled from the spec: the `Document` collaborator's count of distinct
types in the document. -/
def documentNumTypes (doc : List (List String)) : Nat :=
  (documentFreq doc).length

/-- Modelled from the spec: the `Document` collaborator's total token count. -/
def documentNumTokens (doc : List (List String)) : Nat :=
  doc.flatten.length

/-- Modelled from the spec: the `Document` collaborator's sequence count. -/
def documentNumSequences (doc : List (List String)) : Nat :=
  doc.length

/-- `Corpus.add_document`: wrap the sequence list in a document, accumulate its
statistics into the corpus-wide counters, and re-derive `type_list` and
`type_index_dict` from the updated frequency table. -/
def add_document (s : CorpusState) (doc : List (List String)) : CorpusState :=
  let newFreq := counterAdd s.type_freq_dict (documentFreq doc)
  let newTypeList := dictKeys newFreq
  { s with
    num_documents := s.num_documents + 1
    document_list := s.document_list ++ [doc]
    type_freq_dict := newFreq
    type_list := newTypeList
    type_index_dict := newTypeList.zip (List.range newTypeList.length)
    num_types := s.num_types + documentNumTypes doc
    num_tokens := s.num_tokens + documentNumTokens doc
    num_sequences := s.num_sequences + documentNumSequences doc }

/-- The unknown-token resolution loop of `Corpus.set_unknown_token`: wrap the
candidate in angle brackets while it collides with a corpus type.  The Python
`while` loop is modelled with fuel; `keys.length + 1` fuel always suffices
(each recursive step consumes a distinct key). -/
def resolveUnknown (keys : List String) : Nat → String → Option String
  | 0, _ => none
  | fuel + 1, cand =>
      if cand ∈ keys then resolveUnknown keys fuel ("<" ++ cand ++ ">")
      else some cand

/-- `Corpus.set_unknown_token` with the default starting candidate: a no-op
when an unknown token is already resolved. -/
def set_unknown_token (keys : List String) : Option String → Option String
  | some u => some u
  | none => resolveUnknown keys (keys.length + 1) "<UNK>"

/-- `Corpus.add_token_to_vocab`: append the token and record its index. -/
def add_token_to_vocab (s : CorpusState) (token : String) : CorpusState :=
  { s with
    vocab_list := s.vocab_list ++ [token]
    vocab_index_dict := dictInsert s.vocab_index_dict token s.vocab_size
    vocab_size := s.vocab_size + 1 }

/-- Count of a key in a frequency table (`filtered_freq_dict[w]`). -/
def countOf (d : List (String × Nat)) (k : String) : Nat :=
  (lookupVal d k).getD 0

/-- Lexicographic comparison of character sequences by code point, exactly
Python's string comparison. -/
def lexLeChars : List Char → List Char → Bool
  | [], _ => true
  | _ :: _, [] => false
  | a :: as, b :: bs =>
      if a.toNat < b.toNat then true
      else if b.toNat < a.toNat then false
      else lexLeChars as bs

/-- Python's `a <= b` on strings: code-point lexicographic order. -/
def strLe (a b : String) : Prop :=
  lexLeChars a.data b.data = true

theorem lexLeChars_total : ∀ as bs, lexLeChars as bs = true ∨ lexLeChars bs as = true
  | [], _ => Or.inl rfl
  | _ :: _, [] => Or.inr rfl
  | a :: as, b :: bs => by
    rcases Nat.lt_trichotomy a.toNat b.toNat with h | h | h
    · exact Or.inl (by simp [lexLeChars, h])
    · rcases lexLeChars_total as bs with ih | ih
      · exact Or.inl (by simp [lexLeChars, h, ih])
      · exact Or.inr (by simp [lexLeChars, h.symm, ih])
    · exact Or.inr (by simp [lexLeChars, h])

theorem lexLeChars_true_cases {a b : Char} {as bs : List Char}
    (h : lexLeChars (a :: as) (b :: bs) = true) :
    a.toNat < b.toNat ∨ (a.toNat = b.toNat ∧ lexLeChars as bs = true) := by
  simp only [lexLeChars] at h
  by_cases hab : a.toNat < b.toNat
  · exact Or.inl hab
  · by_cases hba : b.toNat < a.toNat
    · simp [hab, hba] at h
    · exact Or.inr ⟨by omega, by simpa [hab, hba] using h⟩

theorem lexLeChars_trans : ∀ as bs cs, lexLeChars as bs = true → lexLeChars bs cs = true →
    lexLeChars as cs = true
  | [], _, _ => fun _ _ => rfl
  | _ :: _, [], _ => fun h _ => by simp [lexLeChars] at h
  | _ :: _, _ :: _, [] => fun _ h => by simp [lexLeChars] at h
  | a :: as, b :: bs, c :: cs => fun h1 h2 => by
    rcases lexLeChars_true_cases h1 with hab | ⟨hab, h1'⟩ <;>
      rcases lexLeChars_true_cases h2 with hbc | ⟨hbc, h2'⟩
    · have hac : a.toNat < c.toNat := by omega
      simp [lexLeChars, hac]
    · have hac : a.toNat < c.toNat := by omega
      simp [lexLeChars, hac]
    · have hac : a.toNat < c.toNat := by omega
      simp [lexLeChars, hac]
    · have hac1 : ¬ a.toNat < c.toNat := by omega
      have hac2 : ¬ c.toNat < a.toNat := by omega
      simp [lexLeChars, hac1, hac2, lexLeChars_trans as bs cs h1' h2']

theorem lexLeChars_antisymm : ∀ as bs, lexLeChars as bs = true → lexLeChars bs as = true →
    as = bs
  | [], [] => fun _ _ => rfl
  | [], _ :: _ => fun _ h => by simp [lexLeChars] at h
  | _ :: _, [] => fun h _ => by simp [lexLeChars] at h
  | a :: as, b :: bs => fun h1 h2 => by
    simp only [lexLeChars] at h1 h2
    rcases Nat.lt_trichotomy a.toNat b.toNat with hab | hab | hab
    · simp [hab, Nat.lt_asymm hab, Nat.lt_irrefl] at h2
    · have hc : a = b := Char.ext (UInt32.ext hab)
      have h1' : lexLeChars as bs = true := by
        simpa [hab, Nat.lt_irrefl] using h1
      have h2' : lexLeChars bs as = true := by
        simpa [hab, Nat.lt_irrefl] using h2
      rw [hc, lexLeChars_antisymm as bs h1' h2']
    · simp [hab, Nat.lt_asymm hab, Nat.lt_irrefl] at h1

theorem strLe_total (a b : String) : strLe a b ∨ strLe b a :=
  lexLeChars_total a.data b.data

theorem strLe_trans {a b c : String} (h1 : strLe a b) (h2 : strLe b c) : strLe a c :=
  lexLeChars_trans a.data b.data c.data h1 h2

theorem strLe_antisymm {a b : String} (h1 : strLe a b) (h2 : strLe b a) : a = b := by
  have h := lexLeChars_antisymm a.data b.data h1 h2
  cases a; cases b; exact congrArg String.mk h

instance strLeDecidable (a b : String) : Decidable (strLe a b) :=
  inferInstanceAs (Decidable (lexLeChars a.data b.data = true))

/-- The sort key used by `create_vocab`'s frequency fill: descending
frequency, ties broken by ascending lexicographic order
(Python `key=lambda w: (-freq[w], w)`). -/
def vocabKeyOrder (d : List (String × Nat)) (a b : String) : Prop :=
  countOf d b < countOf d a ∨ (countOf d a = countOf d b ∧ strLe a b)

instance vocabKeyOrderDec (d : List (String × Nat)) : DecidableRel (vocabKeyOrder d) :=
  fun a b =>
    inferInstanceAs (Decidable (countOf d b < countOf d a ∨
      (countOf d a = countOf d b ∧ strLe a b)))

instance vocabKeyOrderTotal (d : List (String × Nat)) :
    IsTotal String (vocabKeyOrder d) := by
  constructor
  intro a b
  rcases Nat.lt_trichotomy (countOf d a) (countOf d b) with h | h | h
  · exact Or.inr (Or.inl h)
  · rcases strLe_total a b with hab | hab
    · exact Or.inl (Or.inr ⟨h, hab⟩)
    · exact Or.inr (Or.inr ⟨h.symm, hab⟩)
  · exact Or.inl (Or.inl h)

instance vocabKeyOrderTrans (d : List (String × Nat)) :
    IsTrans String (vocabKeyOrder d) := by
  constructor
  intro a b c hab hbc
  rcases hab with h1 | ⟨h1, h1s⟩ <;> rcases hbc with h2 | ⟨h2, h2s⟩
  · exact Or.inl (h2.trans h1)
  · exact Or.inl (h2 ▸ h1)
  · exact Or.inl (h1 ▸ h2)
  · exact Or.inr ⟨h1.trans h2, strLe_trans h1s h2s⟩

instance vocabKeyOrderAntisymm (d : List (String × Nat)) :
    IsAntisymm String (vocabKeyOrder d) := by
  constructor
  intro a b hab hba
  rcases hab with h1 | ⟨h1, h1s⟩ <;> rcases hba with h2 | ⟨h2, h2s⟩
  · exact absurd (h1.trans h2) (lt_irrefl _)
  · exact absurd h1 (h2 ▸ lt_irrefl _)
  · exact absurd h2 (h1 ▸ lt_irrefl _)
  · exact strLe_antisymm h1s h2s

/-- The sorted token sequence of `create_vocab`'s fill step
(`sorted(filtered_freq_dict, key=lambda w: (-freq[w], w))`).  Python's
`sorted` is a stable sort; on keys of an association list (distinct strings)
every sort agrees, so a structural insertion sort is used. -/
def sortKeys (d : List (String × Nat)) : List String :=
  List.insertionSort (vocabKeyOrder d) (dictKeys d)

/-- The frequency-fill loop of `create_vocab`: walk the sorted tokens, stop
once the target size is reached, skip tokens already in the vocabulary. -/
def fillVocab (target : Nat) : List String → CorpusState → CorpusState
  | [], s => s
  | t :: rest, s =>
      if target ≤ s.vocab_size then s
      else if keyMem s.vocab_index_dict t then fillVocab target rest s
      else fillVocab target rest (add_token_to_vocab s t)

/-- The reset of the vocabulary structures at the top of `create_vocab`. -/
def clearVocab (s : CorpusState) : CorpusState :=
  { s with vocab_list := [], vocab_index_dict := [], vocab_size := 0 }

/-- One step of `create_vocab`'s include-list loop: insert the token if it is
in the filtered table (and remove it from the table), otherwise record it as
missing. -/
def includeStep (acc : CorpusState × List (String × Nat) × List String) (t : String) :
    CorpusState × List (String × Nat) × List String :=
  if keyMem acc.2.1 t then (add_token_to_vocab acc.1 t, removeKey acc.2.1 t, acc.2.2)
  else (acc.1, acc.2.1, acc.2.2 ++ [t])

/-- Removal of all excluded tokens from a copy of the frequency table. -/
def applyExclude (d : List (String × Nat)) (excludeList : List String) : List (String × Nat) :=
  excludeList.foldl removeKey d

/-- The target-size defaulting at the top of `create_vocab`: `None` means all
distinct types, plus one when the unknown token is included. -/
def vocabTarget (s0 : CorpusState) (vocabSize : Option Nat) (includeUnknown : Bool) : Nat :=
  match vocabSize with
  | none => if includeUnknown then s0.type_freq_dict.length + 1 else s0.type_freq_dict.length
  | some n => n

/-- The optional unknown-token stage of `create_vocab`: resolve the unknown
token and insert it first. `none` only when the resolution fuel runs out,
which never happens (the Python loop always terminates here). -/
def vocabUnknownStage (s0 : CorpusState) (includeUnknown : Bool) : Option CorpusState :=
  if includeUnknown then
    match set_unknown_token (dictKeys s0.type_freq_dict) s0.unknown_token with
    | none => none
    | some u => some (add_token_to_vocab { s0 with unknown_token := some u } u)
  else some s0

/-- The part of `create_vocab` after the unknown-token stage: filter by the
exclude list (error when the filtered table is empty), insert include-list
tokens, then fill from the remaining tokens in sorted order. -/
def create_vocab_core (s1 : CorpusState) (target : Nat) (includeList excludeList : List String) :
    Except String (CorpusState × List String) :=
  let filtered := applyExclude s1.type_freq_dict excludeList
  if filtered.length = 0 then
    Except.error "ERROR making vocab list: After exclusion list there are no words in the corpus"
  else
    let step := includeList.foldl includeStep (s1, filtered, [])
    let s3 := if step.1.vocab_size < target then fillVocab target (sortKeys step.2.1) step.1
      else step.1
    Except.ok (s3, step.2.2)

/-- `Corpus.create_vocab`: reset the vocabulary, default the target size,
optionally resolve and insert the unknown token, then run the filtering,
include-list and frequency-fill stages.  Returns the new state and the
missing-word list. -/
def create_vocab (s : CorpusState) (vocabSize : Option Nat) (includeList excludeList : List String)
    (includeUnknown : Bool) : Except String (CorpusState × List String) :=
  let s0 := clearVocab s
  match vocabUnknownStage s0 includeUnknown with
  | none => Except.error "unknown token resolution exhausted its fuel"
  | some s1 => create_vocab_core s1 (vocabTarget s0 vocabSize includeUnknown)
      includeList excludeList

/-- `Corpus.create_simple_index_list`: map each token to its vocabulary index;
a token absent from the vocabulary falls back to the unknown token's index.
A lookup of a missing key (in particular when no unknown token is configured)
is Python's `KeyError`, modelled as `Except.error`. -/
def create_simple_index_list (flattened : List String) (d : List (String × Nat))
    (unknown : Option String) : Except String (List Nat) :=
  match flattened with
  | [] => Except.ok []
  | t :: rest =>
      let current : Option Nat :=
        if keyMem d t then lookupVal d t
        else unknown.bind (fun u => lookupVal d u)
      match current with
      | none => Except.error "KeyError"
      | some i => (create_simple_index_list rest d unknown).map (fun l => i :: l)

/-- The two guarded emissions of one `(i, j)` iteration of
`create_windowed_index_list`, in source order. -/
def windowEmit (padded : List Nat) (ws : Nat) (direction : String) (i j : Nat) :
    List (Nat × Nat) :=
  if direction = "both" then
    (if j ≤ i then [(padded.getD i 0, padded.getD (i - j) 0)] else []) ++
    (if i + j < padded.length then [(padded.getD i 0, padded.getD (i + j) 0)] else [])
  else if direction = "forward" then
    (if i + ws < padded.length then [(padded.getD i 0, padded.getD (i + j) 0)] else [])
  else
    (if i < padded.length - ws then [(padded.getD (i + j - 1) 0, padded.getD (i + ws) 0)]
     else [])

/-- `Corpus.create_windowed_index_list`: error when `window_size` is zero;
otherwise pad (at the start for `backward`, at the end for every other
direction) and emit the guarded `(center, context)` pairs for every position
`i` of the padded list and every offset `j` from 1 to `window_size`. -/
def create_windowed_index_list (index_list : List Nat) (window_size : Nat)
    (direction : String) (pad_index : Nat) : Except String (List Nat × List Nat) :=
  if window_size = 0 then
    Except.error "Window size cannot be 0, must be None or positive integer"
  else
    let padded :=
      if direction = "backward" then List.replicate window_size pad_index ++ index_list
      else index_list ++ List.replicate window_size pad_index
    let pairs := (List.range padded.length).flatMap
      (fun i => (List.range window_size).flatMap
        (fun j0 => windowEmit padded window_size direction i (j0 + 1)))
    Except.ok (pairs.map Prod.fst, pairs.map Prod.snd)

/-- `Corpus.create_sequence_lists`: singleton chunks when the chunk length is
2; otherwise left-pad with `sequence_length - 2` pad indices (truncated
subtraction, matching Python's empty list for a negative repeat count) and
take every in-bounds slice of length `sequence_length`. -/
def create_sequence_lists (index_list : List Nat) (sequence_length : Nat)
    (pad_index : Nat) : List (List Nat) :=
  if sequence_length = 2 then index_list.map (fun i => [i])
  else
    let padded := List.replicate (sequence_length - 2) pad_index ++ index_list
    (List.range (padded.length + 1)).filterMap
      (fun i =>
        if i + sequence_length ≤ padded.length then
          some ((padded.drop i).take sequence_length)
        else none)

/-- The degenerate-mode loop of `Corpus.create_batches`
(`sequence_length == 1`): walk consecutive element pairs, flush a full batch
at `batch_size` (the flushed `y_window` batch is the `y` batch, as in the
source), and drop the trailing partial batch. -/
def degLoopB (bs : Nat) :
    List (List Nat) →
    List (List (List Nat)) → List (List (List Nat)) → List (List (List Nat)) →
    List (List Nat) → List (List Nat) → List (List Nat) →
    List (List (List Nat)) × List (List (List Nat)) × List (List (List Nat))
  | [], xbs, ybs, ywbs, _, _, _ => (xbs, ybs, ywbs)
  | [_], xbs, ybs, ywbs, _, _, _ => (xbs, ybs, ywbs)
  | a :: b :: rest, xbs, ybs, ywbs, cx, cy, cyw =>
      let cx' := cx ++ [a]
      let cy' := cy ++ [b]
      let cyw' := cyw ++ [b]
      if cx'.length = bs then
        degLoopB bs (b :: rest) (xbs ++ [cx']) (ybs ++ [cy']) (ywbs ++ [cy']) [] [] []
      else degLoopB bs (b :: rest) xbs ybs ywbs cx' cy' cyw'

/-- The general-mode loop of `Corpus.create_batches`: per chunk take
`x = chunk[:-1]`, `y = [chunk[-1]]`, `y_window = chunk[1:]`, flush full
batches, and pad a trailing partial batch to `batch_size` with all-pad rows.
Python's `sequence[-1]` raises on an empty chunk; the default 0 of
`getLastD` is exercised only there. -/
def genLoopB (bs sl pad : Nat) :
    List (List Nat) →
    List (List (List Nat)) → List (List (List Nat)) → List (List (List Nat)) →
    List (List Nat) → List (List Nat) → List (List Nat) →
    List (List (List Nat)) × List (List (List Nat)) × List (List (List Nat))
  | [], xbs, ybs, ywbs, cx, cy, cyw =>
      if cx.isEmpty then (xbs, ybs, ywbs)
      else
        (xbs ++ [cx ++ List.replicate (bs - cx.length) (List.replicate sl pad)],
         ybs ++ [cy ++ List.replicate (bs - cx.length) [pad]],
         ywbs ++ [cyw ++ List.replicate (bs - cx.length) (List.replicate sl pad)])
  | seq :: rest, xbs, ybs, ywbs, cx, cy, cyw =>
      let cx' := cx ++ [seq.dropLast]
      let cy' := cy ++ [[seq.getLastD 0]]
      let cyw' := cyw ++ [seq.tail]
      if cx'.length = bs then
        genLoopB bs sl pad rest (xbs ++ [cx']) (ybs ++ [cy']) (ywbs ++ [cyw']) [] [] []
      else genLoopB bs sl pad rest xbs ybs ywbs cx' cy' cyw'

/-- `Corpus.create_batches`: degenerate mode for `sequence_length == 1`,
general chunk mode otherwise. -/
def create_batches (sequence_list : List (List Nat)) (batch_size sequence_length pad_index : Nat) :
    List (List (List Nat)) × List (List (List Nat)) × List (List (List Nat)) :=
  if sequence_length = 1 then degLoopB batch_size sequence_list [] [] [] [] [] []
  else genLoopB batch_size sequence_length pad_index sequence_list [] [] [] [] [] []

/-- The corpus reached by adding a document containing only token "a" and a
document containing only token "b" to a fresh corpus. -/
def corpusAB : CorpusState :=
  add_document (add_document initCorpus [["a"]]) [["b"]]

/-- Claim C2, counterexample: in `both` mode on `[a,b,c]` with `window_size=1`
the code emits a sixth pair `(pad, c)` at the final padding position, so the
output is not exactly the five claimed pairs. -/
theorem c2_counterexample :
    create_windowed_index_list [1, 2, 3] 1 "both" 0 =
      Except.ok ([1, 2, 2, 3, 3, 0], [2, 1, 3, 2, 0, 3]) ∧
    ([1, 2, 2, 3, 3, 0], [2, 1, 3, 2, 0, 3]) ≠
      (([1, 2, 2, 3, 3], [2, 1, 3, 2, 0]) : List Nat × List Nat) := by
  exact ⟨rfl, by decide⟩

/-- Claim C2, amended: `create_windowed_index_list` in `both` mode on
`[a,b,c]` with `window_size=1` and pad index `pad` returns exactly the pairs
`(a,b),(b,a),(b,c),(c,b),(c,pad),(pad,c)` in generation order — the five
claimed pairs followed by one further pair emitted at the padding position. -/
theorem c2_amended (a b c pad : Nat) :
    create_windowed_index_list [a, b, c] 1 "both" pad =
      Except.ok ([a, b, b, c, c, pad], [b, a, c, b, pad, c]) := rfl

/-- Claim C3: the running counter `num_types` drifts from the frequency
table when the same type occurs in more than one document — after adding two
documents each consisting of the single token "a", `num_types` is 2 while the
corpus-wide frequency table has a single distinct key. -/
theorem c3_num_types_drift :
    (add_document (add_document initCorpus [["a"]]) [["a"]]).num_types = 2 ∧
    (add_document (add_document initCorpus [["a"]]) [["a"]]).type_freq_dict.length = 1 ∧
    (add_document (add_document initCorpus [["a"]]) [["a"]]).type_list = ["a"] := by
  decide

theorem filterMap_all_some {α β : Type} (f : α → Option β) (g : α → β) :
    ∀ l : List α, (∀ a ∈ l, f a = some (g a)) → l.filterMap f = l.map g
  | [], _ => rfl
  | a :: l, h => by
    rw [List.filterMap_cons, List.map_cons, h a (List.mem_cons_self a l),
      filterMap_all_some f g l (fun x hx => h x (List.mem_cons_of_mem a hx))]

theorem filterMap_all_none {α β : Type} (f : α → Option β) :
    ∀ l : List α, (∀ a ∈ l, f a = none) → l.filterMap f = []
  | [], _ => rfl
  | a :: l, h => by
    rw [List.filterMap_cons, h a (List.mem_cons_self a l),
      filterMap_all_none f l (fun x hx => h x (List.mem_cons_of_mem a hx))]

/-- The guarded slice loop of `create_sequence_lists` in closed form: the
windows at positions `0, 1, ..., M - L` of a list of length `M`. -/
theorem range_filterMap_window {α : Type} (M L : Nat) (f : Nat → α) :
    (List.range (M + 1)).filterMap (fun i => if i + L ≤ M then some (f i) else none) =
    (List.range (M + 1 - L)).map f := by
  by_cases hLM : L ≤ M + 1
  · have hsplit : M + 1 = (M + 1 - L) + L := by omega
    rw [hsplit, List.range_add, List.filterMap_append]
    have h1 : (List.range (M + 1 - L)).filterMap
        (fun i => if i + L ≤ M then some (f i) else none) =
        (List.range (M + 1 - L)).map f := by
      refine filterMap_all_some _ _ _ (fun i hi => ?_)
      rw [List.mem_range] at hi
      rw [if_pos (by omega)]
    have h2 : ((List.range L).map ((M + 1 - L) + ·)).filterMap
        (fun i => if i + L ≤ M then some (f i) else none) = [] := by
      refine filterMap_all_none _ _ (fun i hi => ?_)
      rw [List.mem_map] at hi
      obtain ⟨j, hj, rfl⟩ := hi
      rw [List.mem_range] at hj
      rw [if_neg (by omega)]
    rw [h1, h2, List.append_nil]
    have harith : M + 1 - L + L - L = M + 1 - L := by omega
    rw [harith]
  · have hM : M + 1 - L = 0 := by omega
    rw [hM]
    refine filterMap_all_none _ _ (fun i hi => ?_)
    rw [List.mem_range] at hi
    rw [if_neg (by omega)]

/-- Claim C9, counterexample: with chunk length 0 (a value "other than 2")
on the input `[1]`, the code returns two empty chunks, and an empty chunk has
no last element at all, let alone one drawn from the original index list. -/
theorem c9_counterexample :
    create_sequence_lists [1] 0 5 = [[], []] ∧
    ¬ (∀ c ∈ create_sequence_lists [1] 0 5, ∃ x ∈ ([1] : List Nat), c.getLast? = some x) := by
  decide

/-- Claim C9, amended: restricted to positive chunk lengths (with the pad
count `L - 2` read with truncated subtraction).  Chunk length 2 yields one
singleton chunk per input index; any other positive chunk length `L`
left-pads with `L - 2` pad indices and returns all stride-1 windows of size
`L` of the padded list stopping at its end, every returned chunk's last
element being an element of the original index list. -/
theorem c9_amended (L pad : Nat) (h2 : L ≠ 2) (h1 : 1 ≤ L) :
    (∀ (l : List Nat) (p : Nat), create_sequence_lists l 2 p = l.map (fun i => [i])) ∧
    (∀ l : List Nat,
      create_sequence_lists l L pad =
        (List.range ((List.replicate (L - 2) pad ++ l).length + 1 - L)).map
          (fun i => ((List.replicate (L - 2) pad ++ l).drop i).take L)) ∧
    (∀ l : List Nat, ∀ c ∈ create_sequence_lists l L pad,
      ∃ x, x ∈ l ∧ c.getLast? = some x) ∧
    create_sequence_lists [1, 2, 3] 3 0 = [[0, 1, 2], [1, 2, 3]] ∧
    create_sequence_lists [1, 2, 3] 2 0 = [[1], [2], [3]] := by
  have hform : ∀ l : List Nat,
      create_sequence_lists l L pad =
        (List.range ((List.replicate (L - 2) pad ++ l).length + 1 - L)).map
          (fun i => ((List.replicate (L - 2) pad ++ l).drop i).take L) := by
    intro l
    rw [create_sequence_lists, if_neg h2]
    exact range_filterMap_window _ L _
  refine ⟨fun l p => by rw [create_sequence_lists, if_pos rfl], hform, ?_, by decide, by decide⟩
  intro l c hc
  rw [hform l] at hc
  rw [List.mem_map] at hc
  obtain ⟨i, hi, rfl⟩ := hc
  rw [List.mem_range] at hi
  set padded := List.replicate (L - 2) pad ++ l with hpadded
  have hplen : padded.length = (L - 2) + l.length := by
    rw [hpadded, List.length_append, List.length_replicate]
  have hiL : i + L ≤ padded.length := by omega
  have hlen : ((padded.drop i).take L).length = L := by
    rw [List.length_take, List.length_drop]
    omega
  have hql : i + (L - 1) - (L - 2) < l.length := by omega
  refine ⟨l[i + (L - 1) - (L - 2)], List.getElem_mem hql, ?_⟩
  rw [List.getLast?_eq_getElem?, hlen, List.getElem?_take, if_pos (by omega : L - 1 < L),
    List.getElem?_drop, hpadded, List.getElem?_append_right
      (by rw [List.length_replicate]; omega), List.length_replicate,
    List.getElem?_eq_getElem hql]

theorem clearVocab_type_freq_dict (s : CorpusState) :
    (clearVocab s).type_freq_dict = s.type_freq_dict := rfl

theorem clearVocab_unknown_token (s : CorpusState) :
    (clearVocab s).unknown_token = s.unknown_token := rfl

theorem add_token_to_vocab_type_freq_dict (s : CorpusState) (t : String) :
    (add_token_to_vocab s t).type_freq_dict = s.type_freq_dict := rfl

theorem add_token_to_vocab_unknown_token (s : CorpusState) (t : String) :
    (add_token_to_vocab s t).unknown_token = s.unknown_token := rfl

/-- The unknown-token wrapping loop always terminates with a candidate that
collides with no corpus type, given fuel exceeding the number of keys at
least as long as the starting candidate. -/
theorem resolveUnknown_isSome (keys : List String) :
    ∀ (fuel : Nat) (cand : String),
      (keys.filter (fun k => decide (cand.length ≤ k.length))).length < fuel →
      ∃ u, resolveUnknown keys fuel cand = some u ∧ u ∉ keys := by
  intro fuel
  induction fuel with
  | zero => intro cand h; omega
  | succ n ih =>
    intro cand h
    rw [resolveUnknown]
    by_cases hmem : cand ∈ keys
    · rw [if_pos hmem]
      apply ih
      have hlen2 : ("<" ++ cand ++ ">").length = cand.length + 2 := by
        rw [String.length_append, String.length_append,
          show ("<" : String).length = 1 from rfl, show (">" : String).length = 1 from rfl]
        omega
      simp only [hlen2]
      have hq : keys.filter (fun k => decide (cand.length + 2 ≤ k.length)) =
          (keys.filter (fun k => decide (cand.length ≤ k.length))).filter
            (fun k => decide (cand.length + 2 ≤ k.length)) := by
        rw [List.filter_filter]
        refine (List.filter_congr (fun a _ => ?_)).symm
        by_cases hqa : cand.length + 2 ≤ a.length
        · have hpa : cand.length ≤ a.length := by omega
          simp [hqa, hpa]
        · simp [hqa]
      set fp := keys.filter (fun k => decide (cand.length ≤ k.length)) with hfp
      have hsub : List.Sublist
          (fp.filter (fun k => decide (cand.length + 2 ≤ k.length))) fp :=
        List.filter_sublist fp
      have hne : fp.filter (fun k => decide (cand.length + 2 ≤ k.length)) ≠ fp := by
        intro heq
        have hc1 : cand ∈ fp := List.mem_filter.mpr ⟨hmem, by simp⟩
        rw [← heq] at hc1
        have hc2 := (List.mem_filter.mp hc1).2
        simp at hc2
      have hlt : (fp.filter (fun k => decide (cand.length + 2 ≤ k.length))).length <
          fp.length :=
        lt_of_le_of_ne hsub.length_le (fun hl => hne (hsub.eq_of_length hl))
      rw [hq]
      omega
    · rw [if_neg hmem]
      exact ⟨cand, rfl, hmem⟩

/-- The unknown-token stage always succeeds, and it changes nothing but the
vocabulary fields and the unknown token; the frequency table is preserved. -/
theorem vocabUnknownStage_some (s0 : CorpusState) (iu : Bool) :
    ∃ s1, vocabUnknownStage s0 iu = some s1 ∧ s1.type_freq_dict = s0.type_freq_dict := by
  cases iu with
  | false => exact ⟨s0, rfl, rfl⟩
  | true =>
    rw [vocabUnknownStage]
    cases hu : s0.unknown_token with
    | some u =>
      refine ⟨add_token_to_vocab { s0 with unknown_token := some u } u, ?_, rfl⟩
      simp [set_unknown_token, hu]
    | none =>
      have hfuel : ((dictKeys s0.type_freq_dict).filter
          (fun k => decide (("<UNK>" : String).length ≤ k.length))).length <
          (dictKeys s0.type_freq_dict).length + 1 := by
        have := (List.filter_sublist (l := dictKeys s0.type_freq_dict)
          (p := fun k => decide (("<UNK>" : String).length ≤ k.length))).length_le
        omega
      obtain ⟨u, hu2, _⟩ := resolveUnknown_isSome (dictKeys s0.type_freq_dict) _ _ hfuel
      refine ⟨add_token_to_vocab { s0 with unknown_token := some u } u, ?_, rfl⟩
      simp [set_unknown_token, hu, hu2]

/-- Claim C10: `create_vocab` fails with the configuration error whenever the
exclusion list leaves the filtered frequency table empty, and
`create_windowed_index_list` fails with the configuration error whenever
`window_size` is zero; neither returns a normal result there. -/
theorem c10_config_errors (s : CorpusState) (vs : Option Nat) (inc exc : List String)
    (iu : Bool) (hemp : applyExclude s.type_freq_dict exc = []) :
    create_vocab s vs inc exc iu =
      Except.error
        "ERROR making vocab list: After exclusion list there are no words in the corpus" ∧
    ∀ (l : List Nat) (dir : String) (pad : Nat),
      create_windowed_index_list l 0 dir pad =
        Except.error "Window size cannot be 0, must be None or positive integer" := by
  constructor
  · obtain ⟨s1, hs1, hfreq⟩ := vocabUnknownStage_some (clearVocab s) iu
    have hfil : applyExclude s1.type_freq_dict exc = [] := by
      rw [hfreq, clearVocab_type_freq_dict, hemp]
    rw [create_vocab, hs1]
    simp [create_vocab_core, hfil]
  · intro l dir pad
    rw [create_windowed_index_list, if_pos rfl]

/-- Witness for `c10_config_errors` at a concrete corpus: excluding the only
token "a" empties the table and the build fails with the configuration
error. -/
theorem c10_config_errors_witness :
    applyExclude (add_document initCorpus [["a"]]).type_freq_dict ["a"] = [] ∧
    create_vocab (add_document initCorpus [["a"]]) none [] ["a"] true =
      Except.error
        "ERROR making vocab list: After exclusion list there are no words in the corpus" ∧
    create_windowed_index_list [1, 2, 3] 0 "both" 0 =
      Except.error "Window size cannot be 0, must be None or positive integer" := by
  refine ⟨by decide, (c10_config_errors (add_document initCorpus [["a"]]) none [] ["a"] true
    (by decide)).1, (c10_config_errors (add_document initCorpus [["a"]]) none [] ["a"] true
    (by decide)).2 [1, 2, 3] "both" 0⟩

/-- The vocabulary state of a corpus as named by the lifecycle claim:
`vocab_list`, `vocab_index_dict`, `vocab_size` and the unknown token. -/
def vocabState (s : CorpusState) : List String × List (String × Nat) × Nat × Option String :=
  (s.vocab_list, s.vocab_index_dict, s.vocab_size, s.unknown_token)

/-- Agreement on every field `create_vocab` reads or writes: the frequency
table, the three vocabulary fields, and the unknown token. -/
def VocabEquiv (a b : CorpusState) : Prop :=
  a.type_freq_dict = b.type_freq_dict ∧ a.vocab_list = b.vocab_list ∧
  a.vocab_index_dict = b.vocab_index_dict ∧ a.vocab_size = b.vocab_size ∧
  a.unknown_token = b.unknown_token

theorem vocabEquiv_add_token {a b : CorpusState} (h : VocabEquiv a b) (k : String) :
    VocabEquiv (add_token_to_vocab a k) (add_token_to_vocab b k) := by
  obtain ⟨h1, h2, h3, h4, h5⟩ := h
  exact ⟨h1, by rw [add_token_to_vocab, add_token_to_vocab]; rw [h2],
    by rw [add_token_to_vocab, add_token_to_vocab]; rw [h3, h4],
    by rw [add_token_to_vocab, add_token_to_vocab]; rw [h4], h5⟩

theorem vocabEquiv_fill (n : Nat) : ∀ (l : List String) {a b : CorpusState},
    VocabEquiv a b → VocabEquiv (fillVocab n l a) (fillVocab n l b)
  | [], _, _, h => h
  | t :: rest, a, b, h => by
    obtain ⟨h1, h2, h3, h4, h5⟩ := h
    rw [fillVocab, fillVocab, h3, h4]
    by_cases hn : n ≤ b.vocab_size
    · rw [if_pos hn, if_pos hn]
      exact ⟨h1, h2, h3, h4, h5⟩
    · rw [if_neg hn, if_neg hn]
      by_cases hk : keyMem b.vocab_index_dict t
      · rw [if_pos hk, if_pos hk]
        exact vocabEquiv_fill n rest ⟨h1, h2, h3, h4, h5⟩
      · rw [if_neg hk, if_neg hk]
        exact vocabEquiv_fill n rest (vocabEquiv_add_token ⟨h1, h2, h3, h4, h5⟩ t)

theorem vocabEquiv_include (inc : List String) :
    ∀ {a b : CorpusState} (f : List (String × Nat)) (m : List String),
      VocabEquiv a b →
      VocabEquiv (inc.foldl includeStep (a, f, m)).1 (inc.foldl includeStep (b, f, m)).1 ∧
      (inc.foldl includeStep (a, f, m)).2 = (inc.foldl includeStep (b, f, m)).2 := by
  induction inc with
  | nil => intro a b f m h; exact ⟨h, rfl⟩
  | cons t rest ih =>
    intro a b f m h
    rw [List.foldl_cons, List.foldl_cons, includeStep, includeStep]
    by_cases hk : keyMem f t
    · rw [if_pos hk, if_pos hk]
      exact ih _ _ (vocabEquiv_add_token h t)
    · rw [if_neg hk, if_neg hk]
      exact ih _ _ h

theorem vocabEquiv_core (n : Nat) (inc exc : List String) {a b : CorpusState}
    (h : VocabEquiv a b) :
    (create_vocab_core a n inc exc).map (fun p => (vocabState p.1, p.2)) =
    (create_vocab_core b n inc exc).map (fun p => (vocabState p.1, p.2)) := by
  have h1 := h.1
  rw [create_vocab_core, create_vocab_core, h1]
  by_cases hemp : (applyExclude b.type_freq_dict exc).length = 0
  · rw [if_pos hemp, if_pos hemp]
  · rw [if_neg hemp, if_neg hemp]
    obtain ⟨he, hm⟩ := vocabEquiv_include inc (applyExclude b.type_freq_dict exc) [] h
    obtain ⟨g1, g2, g3, g4, g5⟩ := vocabEquiv_fill n
      (sortKeys (inc.foldl includeStep (b, applyExclude b.type_freq_dict exc, [])).2.1)
      he
    rw [Except.map, Except.map]
    rw [hm]
    rw [he.2.2.2.1]
    by_cases hsz : (inc.foldl includeStep
        (b, applyExclude b.type_freq_dict exc, [])).1.vocab_size < n
    · rw [if_pos hsz, if_pos hsz]
      rw [vocabState, vocabState, g2, g3, g4, g5]
    · rw [if_neg hsz, if_neg hsz]
      rw [vocabState, vocabState, he.2.1, he.2.2.1, he.2.2.2.1, he.2.2.2.2]

theorem vocabTarget_congr {s t : CorpusState} (hf : s.type_freq_dict = t.type_freq_dict)
    (vs : Option Nat) (iu : Bool) :
    vocabTarget (clearVocab s) vs iu = vocabTarget (clearVocab t) vs iu := by
  cases vs with
  | some n => rfl
  | none =>
    simp only [vocabTarget]
    rw [clearVocab_type_freq_dict, clearVocab_type_freq_dict, hf]

theorem vocabUnknownStage_equiv {s t : CorpusState} (hf : s.type_freq_dict = t.type_freq_dict)
    (hu : s.unknown_token = t.unknown_token) (iu : Bool) :
    ∃ a1 b1, vocabUnknownStage (clearVocab s) iu = some a1 ∧
      vocabUnknownStage (clearVocab t) iu = some b1 ∧ VocabEquiv a1 b1 := by
  cases iu with
  | false =>
    refine ⟨clearVocab s, clearVocab t, rfl, rfl, ?_, ?_, ?_, ?_, ?_⟩
    · exact hf
    · rfl
    · rfl
    · rfl
    · exact hu
  | true =>
    have hkeys : dictKeys (clearVocab s).type_freq_dict =
        dictKeys (clearVocab t).type_freq_dict := by
      rw [clearVocab_type_freq_dict, clearVocab_type_freq_dict, hf]
    have hunks : (clearVocab s).unknown_token = (clearVocab t).unknown_token := by
      rw [clearVocab_unknown_token, clearVocab_unknown_token, hu]
    rw [vocabUnknownStage, vocabUnknownStage, if_pos rfl, if_pos rfl, hkeys, hunks]
    cases hres : set_unknown_token (dictKeys (clearVocab t).type_freq_dict)
        ((clearVocab t).unknown_token) with
    | none =>
      obtain ⟨b1, hb1, _⟩ := vocabUnknownStage_some (clearVocab t) true
      rw [vocabUnknownStage, if_pos rfl, hres] at hb1
      exact absurd hb1 (by simp)
    | some u =>
      refine ⟨add_token_to_vocab { clearVocab s with unknown_token := some u } u,
        add_token_to_vocab { clearVocab t with unknown_token := some u } u, rfl, rfl, ?_⟩
      refine vocabEquiv_add_token ?_ u
      exact ⟨hf, rfl, rfl, rfl, rfl⟩

/-- The lifecycle claim's fresh starting point: the same corpus with no
previously built vocabulary and no previously resolved unknown token. -/
def resetVocabState (s : CorpusState) : CorpusState :=
  { s with vocab_list := [], vocab_index_dict := [], vocab_size := 0, unknown_token := none }

/-- The stale corpus of the counterexample: build a vocabulary on a corpus
containing only "a" (resolving the unknown token to "<UNK>"), then add a
document that introduces "<UNK>" as a real corpus type. -/
def corpusStale : CorpusState :=
  match create_vocab (add_document initCorpus [["a"]]) none [] [] true with
  | Except.ok p => add_document p.1 [["<UNK>"]]
  | Except.error _ => initCorpus

/-- Claim C4, counterexample: rebuilding the vocabulary on `corpusStale`
keeps the previously resolved unknown token "<UNK>" even though it now
collides with a corpus type, yielding `["<UNK>", "a"]`, while the same call
with no previously built vocabulary and no previously resolved unknown token
resolves "<<UNK>>" and yields `["<<UNK>>", "<UNK>", "a"]` — a different
vocabulary state from the same frequency table and arguments. -/
theorem c4_counterexample :
    (match create_vocab corpusStale none [] [] true with
      | Except.ok p => p.1.vocab_list
      | Except.error _ => []) = ["<UNK>", "a"] ∧
    (match create_vocab (resetVocabState corpusStale) none [] [] true with
      | Except.ok p => p.1.vocab_list
      | Except.error _ => []) = ["<<UNK>>", "<UNK>", "a"] ∧
    (["<UNK>", "a"] : List String) ≠ ["<<UNK>>", "<UNK>", "a"] := by
  exact ⟨rfl, rfl, by decide⟩

/-- Claim C4, amended: `create_vocab` does reset `vocab_list`,
`vocab_index_dict` and `vocab_size` — the produced vocabulary state depends
only on the call's arguments, the frequency table and the previously
resolved unknown token — and it coincides with the fresh-build state
whenever the previously resolved unknown token is the one that resolution
over the current frequency table would produce (the counterexample shows it
can differ when a later document makes the stored token collide). -/
theorem c4_amended (s : CorpusState) (vs : Option Nat) (inc exc : List String) (iu : Bool) :
    (∀ t : CorpusState, s.type_freq_dict = t.type_freq_dict →
        s.unknown_token = t.unknown_token →
        (create_vocab s vs inc exc iu).map (fun p => (vocabState p.1, p.2)) =
          (create_vocab t vs inc exc iu).map (fun p => (vocabState p.1, p.2))) ∧
    (s.unknown_token = set_unknown_token (dictKeys s.type_freq_dict) none →
        (create_vocab s vs inc exc true).map (fun p => (vocabState p.1, p.2)) =
          (create_vocab (resetVocabState s) vs inc exc true).map
            (fun p => (vocabState p.1, p.2))) := by
  constructor
  · intro t hf hu
    obtain ⟨a1, b1, ha, hb, heq⟩ := vocabUnknownStage_equiv hf hu iu
    rw [create_vocab, create_vocab, ha, hb, vocabTarget_congr hf]
    exact vocabEquiv_core _ inc exc heq
  · intro hres
    have hsu : ∃ u, set_unknown_token (dictKeys s.type_freq_dict) none = some u := by
      rw [set_unknown_token]
      have hfuel : ((dictKeys s.type_freq_dict).filter
          (fun k => decide (("<UNK>" : String).length ≤ k.length))).length <
          (dictKeys s.type_freq_dict).length + 1 := by
        have := (List.filter_sublist (l := dictKeys s.type_freq_dict)
          (p := fun k => decide (("<UNK>" : String).length ≤ k.length))).length_le
        omega
      obtain ⟨u, hu2, _⟩ := resolveUnknown_isSome (dictKeys s.type_freq_dict) _ _ hfuel
      exact ⟨u, hu2⟩
    obtain ⟨u, hu⟩ := hsu
    have hsunk : s.unknown_token = some u := by rw [hres, hu]
    have hL : vocabUnknownStage (clearVocab s) true =
        some (add_token_to_vocab { clearVocab s with unknown_token := some u } u) := by
      rw [vocabUnknownStage, if_pos rfl,
        show (clearVocab s).unknown_token = some u from hsunk]
      rfl
    have hR : vocabUnknownStage (clearVocab (resetVocabState s)) true =
        some (add_token_to_vocab
          { clearVocab (resetVocabState s) with unknown_token := some u } u) := by
      rw [vocabUnknownStage, if_pos rfl]
      have hscrut : set_unknown_token
          (dictKeys (clearVocab (resetVocabState s)).type_freq_dict)
          ((clearVocab (resetVocabState s)).unknown_token) = some u := hu
      rw [hscrut]
    rw [create_vocab, create_vocab, hL, hR,
      vocabTarget_congr (show s.type_freq_dict = (resetVocabState s).type_freq_dict from rfl)]
    refine vocabEquiv_core _ inc exc (vocabEquiv_add_token ?_ u)
    exact ⟨rfl, rfl, rfl, rfl, rfl⟩

/-- The single-token corpus "a" with its naturally resolved unknown token,
used to witness the amended lifecycle claim. -/
def corpusAUnk : CorpusState :=
  { add_document initCorpus [["a"]] with unknown_token := some "<UNK>" }

/-- Witness for `c4_amended` at concrete corpora: a corpus over the single
token "a" compared with the same corpus with different non-vocabulary
bookkeeping, and (with its resolved unknown token "<UNK>") with its fully
reset copy. -/
theorem c4_amended_witness :
    ((add_document initCorpus [["a"]]).type_freq_dict =
        ({ add_document initCorpus [["a"]] with num_documents := 99 }
          : CorpusState).type_freq_dict ∧
      (add_document initCorpus [["a"]]).unknown_token =
        ({ add_document initCorpus [["a"]] with num_documents := 99 }
          : CorpusState).unknown_token) ∧
    ((create_vocab (add_document initCorpus [["a"]]) none [] [] false).map
        (fun p => (vocabState p.1, p.2)) =
      (create_vocab { add_document initCorpus [["a"]] with num_documents := 99 }
          none [] [] false).map (fun p => (vocabState p.1, p.2))) ∧
    corpusAUnk.unknown_token = set_unknown_token (dictKeys corpusAUnk.type_freq_dict) none ∧
    ((create_vocab corpusAUnk none [] [] true).map (fun p => (vocabState p.1, p.2)) =
      (create_vocab (resetVocabState corpusAUnk) none [] [] true).map
        (fun p => (vocabState p.1, p.2))) := by
  refine ⟨⟨by decide, by decide⟩, ?_, by decide, ?_⟩
  · exact (c4_amended (add_document initCorpus [["a"]]) none [] [] false).1
      { add_document initCorpus [["a"]] with num_documents := 99 } (by decide) (by decide)
  · exact (c4_amended corpusAUnk none [] [] true).2 (by decide)

/-- Witness for `c9_amended` at chunk length 3 and pad index 0. -/
theorem c9_amended_witness :
    ((3 : Nat) ≠ 2 ∧ 1 ≤ (3 : Nat)) ∧
    create_sequence_lists [1, 2, 3] 3 0 = [[0, 1, 2], [1, 2, 3]] := by
  exact ⟨⟨by decide, by decide⟩, (c9_amended 3 0 (by decide) (by decide)).2.2.2.1⟩

theorem lookupVal_none_iff (d : List (String × Nat)) (k : String) :
    lookupVal d k = none ↔ keyMem d k = false := by
  constructor
  · intro h
    rw [keyMem, List.any_eq_false]
    intro p hp
    rw [lookupVal, Option.map_eq_none', List.find?_eq_none] at h
    simpa using h p hp
  · intro h
    rw [lookupVal, Option.map_eq_none', List.find?_eq_none]
    rw [keyMem, List.any_eq_false] at h
    intro p hp
    simpa using h p hp

theorem lookupVal_isSome_of_keyMem {d : List (String × Nat)} {k : String}
    (h : keyMem d k = true) : ∃ i, lookupVal d k = some i := by
  cases hv : lookupVal d k with
  | some i => exact ⟨i, rfl⟩
  | none => rw [(lookupVal_none_iff d k).mp hv] at h; cases h

/-- Claim C5: `create_simple_index_list` maps every token present in the
vocabulary index map to its assigned index and every absent token to the
unknown token's index when an unknown token is configured (with its index in
the map); and when some token is absent and no unknown token is configured
the call fails with a lookup error instead of returning a result. -/
theorem c5_indexer (l : List String) (d : List (String × Nat)) (u : Option String) :
    (∀ uu ui, u = some uu → lookupVal d uu = some ui →
      create_simple_index_list l d u = Except.ok (l.map (fun t => (lookupVal d t).getD ui))) ∧
    ((∀ t ∈ l, keyMem d t = true) →
      create_simple_index_list l d u = Except.ok (l.map (fun t => (lookupVal d t).getD 0))) ∧
    (u = none → (∃ t ∈ l, keyMem d t = false) →
      ∃ e, create_simple_index_list l d u = Except.error e) := by
  induction l with
  | nil =>
    refine ⟨fun uu ui hu hui => rfl, fun _ => rfl, fun _ hbad => ?_⟩
    obtain ⟨t, ht, _⟩ := hbad
    cases ht
  | cons t rest ih =>
    obtain ⟨ih1, ih2, ih3⟩ := ih
    refine ⟨?_, ?_, ?_⟩
    · intro uu ui hu hui
      subst hu
      rw [create_simple_index_list]
      by_cases hk : keyMem d t
      · obtain ⟨i, hi⟩ := lookupVal_isSome_of_keyMem hk
        rw [if_pos hk, hi, ih1 uu ui rfl hui, List.map_cons, hi]
        rfl
      · have hnone : lookupVal d t = none := (lookupVal_none_iff d t).mpr (by simpa using hk)
        rw [if_neg hk, Option.some_bind, hui, ih1 uu ui rfl hui]
        simp [hnone]
        rfl
    · intro hall
      have hk : keyMem d t = true := hall t (List.mem_cons_self t rest)
      obtain ⟨i, hi⟩ := lookupVal_isSome_of_keyMem hk
      rw [create_simple_index_list, if_pos hk, hi,
        ih2 (fun x hx => hall x (List.mem_cons_of_mem t hx)), List.map_cons, hi]
      rfl
    · intro hu hbad
      subst hu
      rw [create_simple_index_list]
      by_cases hk : keyMem d t
      · obtain ⟨i, hi⟩ := lookupVal_isSome_of_keyMem hk
        have hbad' : ∃ x ∈ rest, keyMem d x = false := by
          obtain ⟨x, hx, hxf⟩ := hbad
          rcases List.mem_cons.mp hx with rfl | hxr
          · rw [hk] at hxf; cases hxf
          · exact ⟨x, hxr, hxf⟩
        obtain ⟨e, he⟩ := ih3 rfl hbad'
        rw [if_pos hk, hi, he]
        exact ⟨e, rfl⟩
      · rw [if_neg hk]
        exact ⟨"KeyError", rfl⟩

/-- Witness for `c5_indexer`: on the vocabulary `{"a" ↦ 0, "<UNK>" ↦ 1}` the
token list `["a", "b"]` maps to `[0, 1]` with the unknown token configured,
and with no unknown token configured the same list fails with a lookup
error. -/
theorem c5_indexer_witness :
    create_simple_index_list ["a", "b"] [("a", 0), ("<UNK>", 1)] (some "<UNK>") =
      Except.ok [0, 1] ∧
    ∃ e, create_simple_index_list ["a", "b"] [("a", 0)] none = Except.error e := by
  constructor
  · have h := (c5_indexer ["a", "b"] [("a", 0), ("<UNK>", 1)] (some "<UNK>")).1
      "<UNK>" 1 rfl (by decide)
    rw [h]
    rfl
  · exact (c5_indexer ["a", "b"] [("a", 0)] none).2.2 rfl ⟨"b", by decide, by decide⟩

/-- Normal form of one accumulator of the degenerate batching loop: group the
stream into chunks of `bs`, dropping the trailing partial chunk. -/
def chunkDrop (bs : Nat) : List (List Nat) → List (List Nat) → List (List (List Nat)) →
    List (List (List Nat))
  | [], _, acc => acc
  | r :: rest, cur, acc =>
      let cur' := cur ++ [r]
      if cur'.length = bs then chunkDrop bs rest [] (acc ++ [cur'])
      else chunkDrop bs rest cur' acc

/-- The degenerate loop is three independent `chunkDrop` runs: the `x` stream
is the input without its last element, the `y` and `y_window` streams are the
input without its first element, and the flushed `y_window` batches are the
`y` batches. -/
theorem degLoopB_eq (bs : Nat) : ∀ (l : List (List Nat)) xbs ybs ywbs cx cy cyw,
    cx.length = cy.length →
    degLoopB bs l xbs ybs ywbs cx cy cyw =
      (chunkDrop bs l.dropLast cx xbs, chunkDrop bs l.tail cy ybs,
        chunkDrop bs l.tail cy ywbs)
  | [], xbs, ybs, ywbs, cx, cy, cyw, _ => rfl
  | [_], xbs, ybs, ywbs, cx, cy, cyw, _ => rfl
  | a :: b :: rest, xbs, ybs, ywbs, cx, cy, cyw, hlen => by
    rw [List.dropLast_cons₂, List.tail_cons]
    simp only [degLoopB, chunkDrop]
    by_cases hf : (cx ++ [a]).length = bs
    · have hfy : (cy ++ [b]).length = bs := by
        rw [List.length_append] at hf ⊢
        simp at hf ⊢
        omega
      rw [if_pos hf, if_pos hf, if_pos hfy, if_pos hfy,
        degLoopB_eq bs (b :: rest) _ _ _ [] [] [] rfl, List.tail_cons]
    · have hfy : ¬ (cy ++ [b]).length = bs := by
        rw [List.length_append] at hf ⊢
        simp at hf ⊢
        omega
      rw [if_neg hf, if_neg hf, if_neg hfy, if_neg hfy,
        degLoopB_eq bs (b :: rest) _ _ _ (cx ++ [a]) (cy ++ [b]) (cyw ++ [b])
          (by simp [hlen]), List.tail_cons]

/-- What `chunkDrop` keeps: the longest multiple-of-`bs` prefix of the
stream (prepended with the carried partial chunk); the rest is dropped. -/
theorem chunkDrop_flatten (bs : Nat) (hbs : 0 < bs) :
    ∀ (l : List (List Nat)) (cur : List (List Nat)) (acc : List (List (List Nat))),
      cur.length < bs →
      (chunkDrop bs l cur acc).flatten =
        acc.flatten ++ (cur ++ l).take (bs * ((cur.length + l.length) / bs))
  | [], cur, acc, hc => by
    rw [chunkDrop]
    have h0 : cur.length / bs = 0 := Nat.div_eq_of_lt hc
    simp [h0]
  | r :: rest, cur, acc, hc => by
    rw [chunkDrop]
    by_cases hf : (cur ++ [r]).length = bs
    · rw [if_pos hf]
      rw [chunkDrop_flatten bs hbs rest [] (acc ++ [cur ++ [r]]) hbs]
      simp only [List.nil_append, List.length_nil, Nat.zero_add, List.flatten_append,
        List.flatten_cons, List.flatten_nil, List.append_nil]
      have hlen : cur.length + 1 = bs := by
        rw [List.length_append] at hf
        simpa using hf
      have harith : (cur.length + (r :: rest).length) / bs = rest.length / bs + 1 := by
        have h2 : cur.length + (r :: rest).length = rest.length + bs := by
          rw [List.length_cons]
          omega
        rw [h2, Nat.add_div_right _ hbs]
      rw [harith]
      have hshape : cur ++ r :: rest = (cur ++ [r]) ++ rest := by simp
      rw [hshape, Nat.mul_add, Nat.mul_one, List.take_append_eq_append_take]
      have htle : (cur ++ [r]).length ≤ bs * (rest.length / bs) + bs := by
        rw [hf]
        omega
      rw [List.take_of_length_le htle, hf]
      have h3 : bs * (rest.length / bs) + bs - bs = bs * (rest.length / bs) := by omega
      rw [h3]
      simp [List.append_assoc]
    · rw [if_neg hf]
      have hc' : (cur ++ [r]).length < bs := by
        rw [List.length_append] at hf ⊢
        simp at hf ⊢
        omega
      rw [chunkDrop_flatten bs hbs rest (cur ++ [r]) acc hc']
      have hshape : (cur ++ [r]) ++ rest = cur ++ r :: rest := by simp
      have harith : (cur ++ [r]).length + rest.length = cur.length + (r :: rest).length := by
        rw [List.length_append, List.length_cons]
        simp
        omega
      rw [hshape, harith]

/-- Every batch `chunkDrop` emits has exactly `bs` rows. -/
theorem chunkDrop_batch_len (bs : Nat) :
    ∀ (l cur : List (List Nat)) (acc : List (List (List Nat))),
      (∀ b ∈ acc, b.length = bs) →
      ∀ b ∈ chunkDrop bs l cur acc, b.length = bs
  | [], cur, acc, hacc => by rw [chunkDrop]; exact hacc
  | r :: rest, cur, acc, hacc => by
    rw [chunkDrop]
    by_cases hf : (cur ++ [r]).length = bs
    · rw [if_pos hf]
      refine chunkDrop_batch_len bs rest [] _ (fun b hb => ?_)
      rcases List.mem_append.mp hb with hb | hb
      · exact hacc b hb
      · rw [List.mem_singleton.mp hb]; exact hf
    · rw [if_neg hf]
      exact chunkDrop_batch_len bs rest (cur ++ [r]) acc hacc

/-- The number of batches `chunkDrop` emits. -/
theorem chunkDrop_length (bs : Nat) (hbs : 0 < bs) :
    ∀ (l cur : List (List Nat)) (acc : List (List (List Nat))),
      cur.length < bs →
      (chunkDrop bs l cur acc).length = acc.length + (cur.length + l.length) / bs
  | [], cur, acc, hc => by
    rw [chunkDrop]
    have h0 : (cur.length + ([] : List (List Nat)).length) / bs = 0 := by
      simp
      exact Nat.div_eq_of_lt hc
    rw [h0, Nat.add_zero]
  | r :: rest, cur, acc, hc => by
    rw [chunkDrop]
    by_cases hf : (cur ++ [r]).length = bs
    · rw [if_pos hf]
      rw [chunkDrop_length bs hbs rest [] (acc ++ [cur ++ [r]]) hbs]
      have hlen : cur.length + 1 = bs := by
        rw [List.length_append] at hf
        simpa using hf
      have harith : (cur.length + (r :: rest).length) / bs = rest.length / bs + 1 := by
        have h2 : cur.length + (r :: rest).length = rest.length + bs := by
          rw [List.length_cons]
          omega
        rw [h2, Nat.add_div_right _ hbs]
      rw [harith, List.length_append]
      have h4 : ([] : List (List Nat)).length + rest.length = rest.length := by simp
      rw [h4]
      generalize rest.length / bs = q
      simp
      omega
    · rw [if_neg hf]
      have hc' : (cur ++ [r]).length < bs := by
        rw [List.length_append] at hf ⊢
        simp at hf ⊢
        omega
      rw [chunkDrop_length bs hbs rest (cur ++ [r]) acc hc']
      have harith : (cur ++ [r]).length + rest.length = cur.length + (r :: rest).length := by
        rw [List.length_append, List.length_cons]
        simp
        omega
      rw [harith]

/-- Claim C8: in degenerate mode (`sequence_length = 1`) `create_batches`
pairs each element with its successor, groups the pairs into batches of
exactly `batch_size`, silently discards a trailing partial group, never
fabricates pad rows (the flattened outputs are prefixes of the shifted
input streams), and returns `y_window_batches` equal to `y_batches`. -/
theorem c8_degenerate (l : List (List Nat)) (bs pad : Nat) (hbs : 0 < bs) :
    (create_batches l bs 1 pad).2.2 = (create_batches l bs 1 pad).2.1 ∧
    (create_batches l bs 1 pad).1.length = (create_batches l bs 1 pad).2.1.length ∧
    (create_batches l bs 1 pad).1.length = (l.length - 1) / bs ∧
    (∀ b ∈ (create_batches l bs 1 pad).1, b.length = bs) ∧
    (∀ b ∈ (create_batches l bs 1 pad).2.1, b.length = bs) ∧
    (create_batches l bs 1 pad).1.flatten =
      l.dropLast.take (bs * ((l.length - 1) / bs)) ∧
    (create_batches l bs 1 pad).2.1.flatten =
      l.tail.take (bs * ((l.length - 1) / bs)) := by
  have heq : create_batches l bs 1 pad =
      (chunkDrop bs l.dropLast [] [], chunkDrop bs l.tail [] [],
        chunkDrop bs l.tail [] []) := by
    rw [create_batches, if_pos rfl]
    exact degLoopB_eq bs l [] [] [] [] [] [] rfl
  rw [heq]
  refine ⟨rfl, ?_, ?_, ?_, ?_, ?_, ?_⟩
  · rw [chunkDrop_length bs hbs _ _ _ (by simpa using hbs), chunkDrop_length bs hbs _ _ _ (by simpa using hbs),
      List.length_dropLast, List.length_tail]
  · rw [chunkDrop_length bs hbs _ _ _ (by simpa using hbs), List.length_dropLast]
    simp
  · exact chunkDrop_batch_len bs _ _ _ (by simp)
  · exact chunkDrop_batch_len bs _ _ _ (by simp)
  · rw [chunkDrop_flatten bs hbs _ _ _ (by simpa using hbs), List.length_dropLast]
    simp
  · rw [chunkDrop_flatten bs hbs _ _ _ (by simpa using hbs), List.length_tail]
    simp

/-- Witness for `c8_degenerate` on the stream `[[1],[2],[3],[4],[5]]` with
batch size 2: two full batches, the trailing fifth pair group dropped. -/
theorem c8_degenerate_witness :
    0 < 2 ∧
    ((create_batches [[1], [2], [3], [4], [5]] 2 1 0).2.2 =
      (create_batches [[1], [2], [3], [4], [5]] 2 1 0).2.1 ∧
    (create_batches [[1], [2], [3], [4], [5]] 2 1 0).1.length =
      (create_batches [[1], [2], [3], [4], [5]] 2 1 0).2.1.length ∧
    (create_batches [[1], [2], [3], [4], [5]] 2 1 0).1.length =
      (([[1], [2], [3], [4], [5]] : List (List Nat)).length - 1) / 2 ∧
    (∀ b ∈ (create_batches [[1], [2], [3], [4], [5]] 2 1 0).1, b.length = 2) ∧
    (∀ b ∈ (create_batches [[1], [2], [3], [4], [5]] 2 1 0).2.1, b.length = 2) ∧
    (create_batches [[1], [2], [3], [4], [5]] 2 1 0).1.flatten =
      ([[1], [2], [3], [4], [5]] : List (List Nat)).dropLast.take
        (2 * ((([[1], [2], [3], [4], [5]] : List (List Nat)).length - 1) / 2)) ∧
    (create_batches [[1], [2], [3], [4], [5]] 2 1 0).2.1.flatten =
      ([[1], [2], [3], [4], [5]] : List (List Nat)).tail.take
        (2 * ((([[1], [2], [3], [4], [5]] : List (List Nat)).length - 1) / 2))) :=
  ⟨by decide, c8_degenerate [[1], [2], [3], [4], [5]] 2 0 (by decide)⟩

/-- Normal form of one accumulator of the general batching loop: group the
stream into chunks of `bs`, padding the trailing partial chunk to exactly
`bs` with copies of `padRow`. -/
def chunkPad (bs : Nat) (padRow : List Nat) : List (List Nat) → List (List Nat) →
    List (List (List Nat)) → List (List (List Nat))
  | [], cur, acc =>
      if cur.isEmpty then acc
      else acc ++ [cur ++ List.replicate (bs - cur.length) padRow]
  | r :: rest, cur, acc =>
      let cur' := cur ++ [r]
      if cur'.length = bs then chunkPad bs padRow rest [] (acc ++ [cur'])
      else chunkPad bs padRow rest cur' acc

/-- The general loop is three independent `chunkPad` runs over the per-chunk
projections `chunk[:-1]`, `[chunk[-1]]` and `chunk[1:]`, with all-pad rows
of length `sl` for `x`/`y_window` and a singleton pad for `y`. -/
theorem genLoopB_eq (bs sl pad : Nat) : ∀ (l : List (List Nat)) xbs ybs ywbs cx cy cyw,
    cx.length = cy.length → cx.length = cyw.length →
    genLoopB bs sl pad l xbs ybs ywbs cx cy cyw =
      (chunkPad bs (List.replicate sl pad) (l.map List.dropLast) cx xbs,
       chunkPad bs [pad] (l.map (fun s => [s.getLastD 0])) cy ybs,
       chunkPad bs (List.replicate sl pad) (l.map List.tail) cyw ywbs)
  | [], xbs, ybs, ywbs, cx, cy, cyw, h1, h2 => by
    simp only [genLoopB, List.map_nil, chunkPad]
    by_cases he : cx.isEmpty
    · have hey : cy.isEmpty := by
        rw [List.isEmpty_iff_length_eq_zero] at he ⊢
        omega
      have heyw : cyw.isEmpty := by
        rw [List.isEmpty_iff_length_eq_zero] at he ⊢
        omega
      rw [if_pos he, if_pos he, if_pos hey, if_pos heyw]
    · have hey : ¬ cy.isEmpty := by
        rw [List.isEmpty_iff_length_eq_zero] at he ⊢
        omega
      have heyw : ¬ cyw.isEmpty := by
        rw [List.isEmpty_iff_length_eq_zero] at he ⊢
        omega
      rw [if_neg he, if_neg he, if_neg hey, if_neg heyw, h1,
        show cy.length = cyw.length from by omega]
  | seq :: rest, xbs, ybs, ywbs, cx, cy, cyw, h1, h2 => by
    simp only [genLoopB, List.map_cons, chunkPad]
    by_cases hf : (cx ++ [seq.dropLast]).length = bs
    · have hfy : (cy ++ [[seq.getLastD 0]]).length = bs := by
        rw [List.length_append] at hf ⊢
        simp at hf ⊢
        omega
      have hfyw : (cyw ++ [seq.tail]).length = bs := by
        rw [List.length_append] at hf ⊢
        simp at hf ⊢
        omega
      rw [if_pos hf, if_pos hf, if_pos hfy, if_pos hfyw,
        genLoopB_eq bs sl pad rest _ _ _ [] [] [] rfl rfl]
    · have hfy : ¬ (cy ++ [[seq.getLastD 0]]).length = bs := by
        rw [List.length_append] at hf ⊢
        simp at hf ⊢
        omega
      have hfyw : ¬ (cyw ++ [seq.tail]).length = bs := by
        rw [List.length_append] at hf ⊢
        simp at hf ⊢
        omega
      rw [if_neg hf, if_neg hf, if_neg hfy, if_neg hfyw,
        genLoopB_eq bs sl pad rest _ _ _ (cx ++ [seq.dropLast]) (cy ++ [[seq.getLastD 0]])
          (cyw ++ [seq.tail]) (by simp [h1]) (by simp [h2])]

/-- What `chunkPad` emits, flattened: the carried partial chunk, the whole
stream, then exactly enough pad rows to fill the last batch. -/
theorem chunkPad_flatten (bs : Nat) (p : List Nat) (hbs : 0 < bs) :
    ∀ (l cur : List (List Nat)) (acc : List (List (List Nat))),
      cur.length < bs →
      (chunkPad bs p l cur acc).flatten =
        acc.flatten ++ cur ++ l ++
          List.replicate ((bs - (cur.length + l.length) % bs) % bs) p
  | [], cur, acc, hc => by
    rw [chunkPad]
    by_cases he : cur.isEmpty
    · rw [if_pos he]
      rw [List.isEmpty_iff] at he
      subst he
      simp
    · rw [if_neg he]
      rw [List.isEmpty_iff] at he
      have hpos : 0 < cur.length := List.length_pos.mpr he
      have hm : (cur.length + ([] : List (List Nat)).length) % bs = cur.length := by
        simp
        exact Nat.mod_eq_of_lt hc
      rw [hm]
      have hm2 : (bs - cur.length) % bs = bs - cur.length := Nat.mod_eq_of_lt (by omega)
      rw [hm2]
      simp [List.append_assoc]
  | r :: rest, cur, acc, hc => by
    rw [chunkPad]
    by_cases hf : (cur ++ [r]).length = bs
    · rw [if_pos hf]
      rw [chunkPad_flatten bs p hbs rest [] (acc ++ [cur ++ [r]]) hbs]
      simp only [List.nil_append, List.length_nil, Nat.zero_add, List.flatten_append,
        List.flatten_cons, List.flatten_nil, List.append_nil]
      have hlen : cur.length + 1 = bs := by
        rw [List.length_append] at hf
        simpa using hf
      have hm : (cur.length + (r :: rest).length) % bs = rest.length % bs := by
        rw [List.length_cons]
        have h2 : cur.length + (rest.length + 1) = bs + rest.length := by omega
        rw [h2, Nat.add_mod_left]
      rw [hm]
      simp [List.append_assoc]
    · rw [if_neg hf]
      have hc' : (cur ++ [r]).length < bs := by
        rw [List.length_append] at hf ⊢
        simp at hf ⊢
        omega
      rw [chunkPad_flatten bs p hbs rest (cur ++ [r]) acc hc']
      have harith : (cur ++ [r]).length + rest.length = cur.length + (r :: rest).length := by
        rw [List.length_append, List.length_cons]
        simp
        omega
      rw [harith]
      simp [List.append_assoc]

/-- Every batch `chunkPad` emits has exactly `bs` rows. -/
theorem chunkPad_batch_len (bs : Nat) (p : List Nat) :
    ∀ (l cur : List (List Nat)) (acc : List (List (List Nat))),
      cur.length < bs →
      (∀ b ∈ acc, b.length = bs) →
      ∀ b ∈ chunkPad bs p l cur acc, b.length = bs
  | [], cur, acc, hc, hacc => by
    rw [chunkPad]
    by_cases he : cur.isEmpty
    · rw [if_pos he]
      exact hacc
    · rw [if_neg he]
      intro b hb
      rcases List.mem_append.mp hb with hb | hb
      · exact hacc b hb
      · rw [List.mem_singleton.mp hb, List.length_append, List.length_replicate]
        omega
  | r :: rest, cur, acc, hc, hacc => by
    rw [chunkPad]
    by_cases hf : (cur ++ [r]).length = bs
    · rw [if_pos hf]
      refine chunkPad_batch_len bs p rest [] _ (by simp; omega) (fun b hb => ?_)
      rcases List.mem_append.mp hb with hb | hb
      · exact hacc b hb
      · rw [List.mem_singleton.mp hb]
        exact hf
    · rw [if_neg hf]
      refine chunkPad_batch_len bs p rest (cur ++ [r]) acc ?_ hacc
      rw [List.length_append] at hf ⊢
      simp at hf ⊢
      omega

/-- The number of batches `chunkPad` emits: the ceiling of the stream length
(plus carried rows) over `bs`. -/
theorem chunkPad_length (bs : Nat) (p : List Nat) (hbs : 0 < bs) :
    ∀ (l cur : List (List Nat)) (acc : List (List (List Nat))),
      cur.length < bs →
      (chunkPad bs p l cur acc).length =
        acc.length + (cur.length + l.length + bs - 1) / bs
  | [], cur, acc, hc => by
    rw [chunkPad]
    by_cases he : cur.isEmpty
    · rw [if_pos he]
      rw [List.isEmpty_iff_length_eq_zero] at he
      have h0 : (cur.length + ([] : List (List Nat)).length + bs - 1) / bs = 0 :=
        Nat.div_eq_of_lt (by simp [he]; omega)
      rw [h0, Nat.add_zero]
    · rw [if_neg he]
      rw [List.isEmpty_iff] at he
      have hpos : 0 < cur.length := List.length_pos.mpr he
      have h1 : (cur.length + ([] : List (List Nat)).length + bs - 1) / bs = 1 := by
        refine Nat.div_eq_of_lt_le (by simp; omega) (by simp; omega)
      rw [h1, List.length_append]
      simp
  | r :: rest, cur, acc, hc => by
    rw [chunkPad]
    by_cases hf : (cur ++ [r]).length = bs
    · rw [if_pos hf]
      rw [chunkPad_length bs p hbs rest [] (acc ++ [cur ++ [r]]) hbs]
      have hlen : cur.length + 1 = bs := by
        rw [List.length_append] at hf
        simpa using hf
      have harith : (cur.length + (r :: rest).length + bs - 1) / bs =
          (([] : List (List Nat)).length + rest.length + bs - 1) / bs + 1 := by
        rw [List.length_cons]
        have h2 : cur.length + (rest.length + 1) + bs - 1 =
            (([] : List (List Nat)).length + rest.length + bs - 1) + bs := by
          simp
          omega
        rw [h2, Nat.add_div_right _ hbs]
      rw [harith, List.length_append]
      simp
      omega
    · rw [if_neg hf]
      have hc' : (cur ++ [r]).length < bs := by
        rw [List.length_append] at hf ⊢
        simp at hf ⊢
        omega
      rw [chunkPad_length bs p hbs rest (cur ++ [r]) acc hc']
      have harith : (cur ++ [r]).length + rest.length = cur.length + (r :: rest).length := by
        rw [List.length_append, List.length_cons]
        simp
        omega
      rw [harith]

/-- Claim C7: in general mode (`sequence_length > 1`), on chunks of length
`sequence_length + 1`, `create_batches` takes per chunk `x` = the chunk
without its last element, `y` = a singleton of the last element and
`y_window` = the chunk without its first element; it pads the final partial
batch to exactly `batch_size` with all-pad rows of length `sequence_length`
for `x`/`y_window` and a singleton pad for `y`; the three batch lists have
equal length and every batch has exactly `batch_size` rows of uniform row
length. -/
theorem c7_general (l : List (List Nat)) (bs sl pad : Nat) (hbs : 0 < bs) (hsl : 1 < sl)
    (hchunks : ∀ c ∈ l, c.length = sl + 1) :
    (create_batches l bs sl pad).1.length = (create_batches l bs sl pad).2.1.length ∧
    (create_batches l bs sl pad).1.length = (create_batches l bs sl pad).2.2.length ∧
    (∀ b ∈ (create_batches l bs sl pad).1, b.length = bs) ∧
    (∀ b ∈ (create_batches l bs sl pad).2.1, b.length = bs) ∧
    (∀ b ∈ (create_batches l bs sl pad).2.2, b.length = bs) ∧
    (∀ b ∈ (create_batches l bs sl pad).1, ∀ row ∈ b, row.length = sl) ∧
    (∀ b ∈ (create_batches l bs sl pad).2.1, ∀ row ∈ b, row.length = 1) ∧
    (∀ b ∈ (create_batches l bs sl pad).2.2, ∀ row ∈ b, row.length = sl) ∧
    (create_batches l bs sl pad).1.flatten =
      l.map List.dropLast ++
        List.replicate ((bs - l.length % bs) % bs) (List.replicate sl pad) ∧
    (create_batches l bs sl pad).2.1.flatten =
      l.map (fun s => [s.getLastD 0]) ++ List.replicate ((bs - l.length % bs) % bs) [pad] ∧
    (create_batches l bs sl pad).2.2.flatten =
      l.map List.tail ++
        List.replicate ((bs - l.length % bs) % bs) (List.replicate sl pad) := by
  have heq : create_batches l bs sl pad =
      (chunkPad bs (List.replicate sl pad) (l.map List.dropLast) [] [],
       chunkPad bs [pad] (l.map (fun s => [s.getLastD 0])) [] [],
       chunkPad bs (List.replicate sl pad) (l.map List.tail) [] []) := by
    rw [create_batches, if_neg (by omega)]
    exact genLoopB_eq bs sl pad l [] [] [] [] [] [] rfl rfl
  have hflat1 : (chunkPad bs (List.replicate sl pad) (l.map List.dropLast) [] []).flatten =
      l.map List.dropLast ++
        List.replicate ((bs - l.length % bs) % bs) (List.replicate sl pad) := by
    rw [chunkPad_flatten bs _ hbs _ _ _ (by simpa using hbs)]
    simp
  have hflat2 : (chunkPad bs [pad] (l.map (fun s => [s.getLastD 0])) [] []).flatten =
      l.map (fun s => [s.getLastD 0]) ++
        List.replicate ((bs - l.length % bs) % bs) [pad] := by
    rw [chunkPad_flatten bs _ hbs _ _ _ (by simpa using hbs)]
    simp
  have hflat3 : (chunkPad bs (List.replicate sl pad) (l.map List.tail) [] []).flatten =
      l.map List.tail ++
        List.replicate ((bs - l.length % bs) % bs) (List.replicate sl pad) := by
    rw [chunkPad_flatten bs _ hbs _ _ _ (by simpa using hbs)]
    simp
  have hrow1 : ∀ row ∈ l.map List.dropLast ++
      List.replicate ((bs - l.length % bs) % bs) (List.replicate sl pad),
      row.length = sl := by
    intro row hrow
    rcases List.mem_append.mp hrow with h | h
    · obtain ⟨c, hc, rfl⟩ := List.mem_map.mp h
      rw [List.length_dropLast, hchunks c hc]
      omega
    · rw [List.eq_of_mem_replicate h, List.length_replicate]
  have hrow2 : ∀ row ∈ l.map (fun s => [s.getLastD 0]) ++
      List.replicate ((bs - l.length % bs) % bs) [pad], row.length = 1 := by
    intro row hrow
    rcases List.mem_append.mp hrow with h | h
    · obtain ⟨c, hc, rfl⟩ := List.mem_map.mp h
      rfl
    · rw [List.eq_of_mem_replicate h]
      rfl
  have hrow3 : ∀ row ∈ l.map List.tail ++
      List.replicate ((bs - l.length % bs) % bs) (List.replicate sl pad),
      row.length = sl := by
    intro row hrow
    rcases List.mem_append.mp hrow with h | h
    · obtain ⟨c, hc, rfl⟩ := List.mem_map.mp h
      rw [List.length_tail, hchunks c hc]
      omega
    · rw [List.eq_of_mem_replicate h, List.length_replicate]
  rw [heq]
  refine ⟨?_, ?_, ?_, ?_, ?_, ?_, ?_, ?_, hflat1, hflat2, hflat3⟩
  · rw [chunkPad_length bs _ hbs _ _ _ (by simpa using hbs),
      chunkPad_length bs _ hbs _ _ _ (by simpa using hbs)]
    simp
  · rw [chunkPad_length bs _ hbs _ _ _ (by simpa using hbs),
      chunkPad_length bs _ hbs _ _ _ (by simpa using hbs)]
    simp
  · exact chunkPad_batch_len bs _ _ _ _ (by simpa using hbs) (by simp)
  · exact chunkPad_batch_len bs _ _ _ _ (by simpa using hbs) (by simp)
  · exact chunkPad_batch_len bs _ _ _ _ (by simpa using hbs) (by simp)
  · intro b hb row hr
    exact hrow1 row (by rw [← hflat1]; exact List.mem_flatten.mpr ⟨b, hb, hr⟩)
  · intro b hb row hr
    exact hrow2 row (by rw [← hflat2]; exact List.mem_flatten.mpr ⟨b, hb, hr⟩)
  · intro b hb row hr
    exact hrow3 row (by rw [← hflat3]; exact List.mem_flatten.mpr ⟨b, hb, hr⟩)

/-- Witness for `c7_general`: five chunks of length 3, batch size 3,
sequence length 2 — the second batch is padded with one fabricated row. -/
theorem c7_general_witness :
    (0 < 3 ∧ 1 < 2 ∧
      (∀ c ∈ ([[1, 2, 3], [4, 5, 6], [7, 8, 9], [10, 11, 12], [13, 14, 15]]
        : List (List Nat)), c.length = 2 + 1)) ∧
    (create_batches [[1, 2, 3], [4, 5, 6], [7, 8, 9], [10, 11, 12], [13, 14, 15]] 3 2 0).1 =
      [[[1, 2], [4, 5], [7, 8]], [[10, 11], [13, 14], [0, 0]]] ∧
    (create_batches [[1, 2, 3], [4, 5, 6], [7, 8, 9], [10, 11, 12], [13, 14, 15]] 3 2 0).2.1 =
      [[[3], [6], [9]], [[12], [15], [0]]] ∧
    (create_batches [[1, 2, 3], [4, 5, 6], [7, 8, 9], [10, 11, 12], [13, 14, 15]] 3 2 0).2.2 =
      [[[2, 3], [5, 6], [8, 9]], [[11, 12], [14, 15], [0, 0]]] ∧
    ((create_batches [[1, 2, 3], [4, 5, 6], [7, 8, 9], [10, 11, 12], [13, 14, 15]] 3 2 0).1.length =
      (create_batches [[1, 2, 3], [4, 5, 6], [7, 8, 9], [10, 11, 12], [13, 14, 15]] 3 2 0).2.1.length ∧
     ∀ b ∈ (create_batches [[1, 2, 3], [4, 5, 6], [7, 8, 9], [10, 11, 12], [13, 14, 15]] 3 2 0).1,
       b.length = 3) := by
  refine ⟨⟨by decide, by decide, by decide⟩, rfl, rfl, rfl, ?_, ?_⟩
  · exact (c7_general [[1, 2, 3], [4, 5, 6], [7, 8, 9], [10, 11, 12], [13, 14, 15]] 3 2 0
      (by decide) (by decide) (by decide)).1
  · exact (c7_general [[1, 2, 3], [4, 5, 6], [7, 8, 9], [10, 11, 12], [13, 14, 15]] 3 2 0
      (by decide) (by decide) (by decide)).2.2.1

/-- Well-formedness of the vocabulary structures: the index map is the list
zipped with `0, 1, 2, ...`, the size is the list length, and the list has no
duplicates — the claim's "indices 0..size-1 with no gaps and no
duplicates". -/
def VocabWF (s : CorpusState) : Prop :=
  s.vocab_index_dict = s.vocab_list.zip (List.range s.vocab_list.length) ∧
  s.vocab_size = s.vocab_list.length ∧ s.vocab_list.Nodup

theorem keyMem_iff (d : List (String × Nat)) (k : String) :
    keyMem d k = true ↔ k ∈ dictKeys d := by
  rw [keyMem, List.any_eq_true, dictKeys]
  constructor
  · rintro ⟨p, hp, hpk⟩
    rw [List.mem_map]
    exact ⟨p, hp, by simpa using hpk⟩
  · intro h
    obtain ⟨p, hp, hpk⟩ := List.mem_map.mp h
    exact ⟨p, hp, by simp [hpk]⟩

theorem vocabWF_keys {s : CorpusState} (h : VocabWF s) :
    s.vocab_index_dict.map Prod.fst = s.vocab_list := by
  rw [h.1]
  exact List.map_fst_zip _ _ (by simp)

theorem clearVocab_wf (s : CorpusState) : VocabWF (clearVocab s) :=
  ⟨rfl, rfl, List.nodup_nil⟩

theorem add_token_wf {s : CorpusState} {t : String} (h : VocabWF s)
    (ht : t ∉ s.vocab_list) :
    VocabWF (add_token_to_vocab s t) ∧
    (add_token_to_vocab s t).vocab_list = s.vocab_list ++ [t] := by
  obtain ⟨h1, h2, h3⟩ := h
  have hkm : keyMem s.vocab_index_dict t = false := by
    cases hk : keyMem s.vocab_index_dict t with
    | false => rfl
    | true =>
      have := (keyMem_iff _ _).mp hk
      rw [dictKeys, vocabWF_keys ⟨h1, h2, h3⟩] at this
      exact absurd this ht
  constructor
  · refine ⟨?_, ?_, ?_⟩
    · rw [add_token_to_vocab]
      simp only
      rw [dictInsert, hkm]
      simp only [Bool.false_eq_true, if_false]
      rw [h1, h2, List.length_append, List.length_singleton,
        List.range_succ, List.zip_append (by simp)]
      simp
    · rw [add_token_to_vocab]
      simp only
      rw [h2, List.length_append]
      simp
    · rw [add_token_to_vocab]
      simp only
      simp [List.nodup_append, h3, ht]
  · rfl

theorem fillVocab_spec (target : Nat) :
    ∀ (l : List String) (s : CorpusState), VocabWF s → l.Nodup →
      VocabWF (fillVocab target l s) ∧
      (∃ added, (fillVocab target l s).vocab_list = s.vocab_list ++ added ∧
        List.Sublist added l) ∧
      (fillVocab target l s).vocab_list.length =
        (if target ≤ s.vocab_list.length then s.vocab_list.length
         else min target (s.vocab_list.length +
           (l.filter (fun x => decide (x ∉ s.vocab_list))).length))
  | [], s, hWF, _ => by
    refine ⟨hWF, ⟨[], by simp [fillVocab], List.nil_sublist []⟩, ?_⟩
    by_cases h : target ≤ s.vocab_list.length
    · rw [fillVocab, if_pos h]
    · rw [fillVocab, if_neg h]
      simp only [List.filter_nil, List.length_nil, Nat.add_zero]
      omega
  | t :: rest, s, hWF, hnd => by
    rw [fillVocab, hWF.2.1]
    by_cases hstop : target ≤ s.vocab_list.length
    · rw [if_pos hstop]
      exact ⟨hWF, ⟨[], by simp, List.nil_sublist _⟩, by rw [if_pos hstop]⟩
    · rw [if_neg hstop]
      cases hkm : keyMem s.vocab_index_dict t with
      | true =>
        have htin : t ∈ s.vocab_list := by
          have := (keyMem_iff _ _).mp hkm
          rwa [dictKeys, vocabWF_keys hWF] at this
        rw [if_pos rfl]
        obtain ⟨hWF2, ⟨added, hadd, hsub⟩, hlen⟩ :=
          fillVocab_spec target rest s hWF (List.nodup_cons.mp hnd).2
        refine ⟨hWF2, ⟨added, hadd, hsub.cons t⟩, ?_⟩
        rw [hlen, if_neg hstop]
        have hfil : (t :: rest).filter (fun x => decide (x ∉ s.vocab_list)) =
            rest.filter (fun x => decide (x ∉ s.vocab_list)) := by
          simp [List.filter_cons, htin]
        rw [hfil, if_neg hstop]
      | false =>
        have htnot : t ∉ s.vocab_list := by
          intro hin
          have hk2 : keyMem s.vocab_index_dict t = true := by
            rw [keyMem_iff, dictKeys, vocabWF_keys hWF]
            exact hin
          rw [hkm] at hk2
          cases hk2
        rw [if_neg Bool.false_ne_true]
        obtain ⟨hWF', hlist'⟩ := add_token_wf hWF htnot
        obtain ⟨hWF2, ⟨added, hadd, hsub⟩, hlen⟩ :=
          fillVocab_spec target rest (add_token_to_vocab s t) hWF'
            (List.nodup_cons.mp hnd).2
        refine ⟨hWF2, ⟨t :: added, ?_, List.cons_sublist_cons.mpr hsub⟩, ?_⟩
        · rw [hadd, hlist']
          simp
        · have htR : t ∉ rest := (List.nodup_cons.mp hnd).1
          have hfil2 : rest.filter
              (fun x => decide (x ∉ (add_token_to_vocab s t).vocab_list)) =
              rest.filter (fun x => decide (x ∉ s.vocab_list)) := by
            apply List.filter_congr
            intro x hx
            rw [hlist']
            simp only [decide_eq_decide, List.mem_append, List.mem_singleton]
            constructor
            · intro h hmem
              exact h (Or.inl hmem)
            · intro h hmem
              rcases hmem with h1 | h1
              · exact h h1
              · exact htR (h1 ▸ hx)
          have hfilc : (t :: rest).filter (fun x => decide (x ∉ s.vocab_list)) =
              t :: rest.filter (fun x => decide (x ∉ s.vocab_list)) := by
            simp [List.filter_cons, htnot]
          rw [hlen, hfil2, hlist', if_neg hstop, hfilc]
          rw [List.length_append, List.length_singleton, List.length_cons]
          by_cases h2 : target ≤ s.vocab_list.length + 1
          · rw [if_pos h2]
            omega
          · rw [if_neg h2]
            omega

theorem sortKeys_perm (d : List (String × Nat)) : List.Perm (sortKeys d) (dictKeys d) :=
  List.perm_insertionSort _ _

/-- The exclude-filter, include-list and frequency-fill stages of
`create_vocab` with empty include and exclude lists: on a well-formed
vocabulary, the build succeeds with no missing words and fills the
vocabulary to exactly the attainable target, with indices `0..n-1`; corpus
types already in the vocabulary (such as a colliding stale unknown token)
are skipped by the fill, which the attainability bound accounts for. -/
theorem create_vocab_core_spec (s1 : CorpusState) (n : Nat)
    (hWF : VocabWF s1)
    (hnd : (dictKeys s1.type_freq_dict).Nodup)
    (hn : s1.vocab_list.length ≤ n)
    (hle : n ≤ s1.vocab_list.length +
      ((dictKeys s1.type_freq_dict).filter (fun x => decide (x ∉ s1.vocab_list))).length)
    (hd0 : s1.type_freq_dict.length ≠ 0) :
    ∃ s3, create_vocab_core s1 n [] [] = Except.ok (s3, []) ∧
      s3.vocab_size = n ∧ s3.vocab_list.length = n ∧ s3.vocab_list.Nodup ∧
      s3.vocab_index_dict.map Prod.fst = s3.vocab_list ∧
      s3.vocab_index_dict.map Prod.snd = List.range n := by
  have hfinish : ∀ s3 : CorpusState, VocabWF s3 → s3.vocab_list.length = n →
      s3.vocab_size = n ∧ s3.vocab_list.length = n ∧ s3.vocab_list.Nodup ∧
      s3.vocab_index_dict.map Prod.fst = s3.vocab_list ∧
      s3.vocab_index_dict.map Prod.snd = List.range n := by
    intro s3 hWF3 hlen3
    refine ⟨by rw [hWF3.2.1, hlen3], hlen3, hWF3.2.2, vocabWF_keys hWF3, ?_⟩
    rw [hWF3.1, List.map_snd_zip _ _ (by simp), hlen3]
  simp only [create_vocab_core, applyExclude, List.foldl_nil]
  rw [if_neg hd0]
  have hsortnd : (sortKeys s1.type_freq_dict).Nodup :=
    (sortKeys_perm s1.type_freq_dict).nodup_iff.mpr hnd
  by_cases hsz : s1.vocab_size < n
  · rw [if_pos hsz]
    obtain ⟨hWF3, _, hlen⟩ :=
      fillVocab_spec n (sortKeys s1.type_freq_dict) s1 hWF hsortnd
    have hsz' : s1.vocab_list.length < n := by
      rw [← hWF.2.1]
      exact hsz
    have hflen : ((sortKeys s1.type_freq_dict).filter
        (fun x => decide (x ∉ s1.vocab_list))).length =
        ((dictKeys s1.type_freq_dict).filter
        (fun x => decide (x ∉ s1.vocab_list))).length :=
      ((sortKeys_perm s1.type_freq_dict).filter
        (fun x => decide (x ∉ s1.vocab_list))).length_eq
    rw [if_neg (by omega), hflen] at hlen
    have hlen' : (fillVocab n (sortKeys s1.type_freq_dict) s1).vocab_list.length = n := by
      rw [hlen]
      omega
    exact ⟨_, rfl, hfinish _ hWF3 hlen'⟩
  · rw [if_neg hsz]
    have hlen' : s1.vocab_list.length = n := by
      have := hWF.2.1
      omega
    exact ⟨s1, rfl, hfinish s1 hWF hlen'⟩

theorem filter_not_mem_singleton_eq (u : String) (K : List String) (hu : u ∉ K) :
    K.filter (fun x => decide (x ∉ [u])) = K := by
  refine List.filter_eq_self.mpr (fun x hx => ?_)
  simp only [decide_eq_true_eq, List.mem_singleton]
  rintro rfl
  exact hu hx

theorem filter_not_mem_singleton_length (u : String) :
    ∀ K : List String, K.Nodup →
      K.length ≤ (K.filter (fun x => decide (x ∉ [u]))).length + 1
  | [], _ => by simp
  | t :: K, hnd => by
    have ih := filter_not_mem_singleton_length u K (List.nodup_cons.mp hnd).2
    by_cases ht : t = u
    · subst ht
      have h1 : (t :: K).filter (fun x => decide (x ∉ [t])) =
          K.filter (fun x => decide (x ∉ [t])) := by
        simp [List.filter_cons]
      rw [h1, filter_not_mem_singleton_eq t K (List.nodup_cons.mp hnd).1]
      simp
    · have h1 : (t :: K).filter (fun x => decide (x ∉ [u])) =
          t :: K.filter (fun x => decide (x ∉ [u])) := by
        simp [List.filter_cons, ht]
      rw [h1]
      simp only [List.length_cons]
      omega

/-- Claim C1, counterexample: on the two-type corpus `{a, b}` with explicit
target size 1 and `include_unknown` requested, the built vocabulary has
exactly 1 entry (only the unknown token) — the unknown token occupies a slot
inside the target size rather than adding one to it. -/
theorem c1_counterexample :
    (match create_vocab corpusAB (some 1) [] [] true with
      | Except.ok p => p.1.vocab_size
      | Except.error _ => 0) = 1 ∧ (1 : Nat) ≠ 1 + 1 := by
  exact ⟨rfl, by decide⟩

/-- Claim C1, amended: for every corpus with a non-empty frequency table
(distinct keys), empty include and exclude lists and every explicit positive
target size at most the number of distinct types, `create_vocab` builds a
vocabulary with exactly target-size entries — when the unknown token is
requested it occupies one of those slots rather than adding one — and the
assigned indices are exactly `0..size-1` with no gaps and no duplicates.
A previously resolved unknown token that collides with a corpus type is
skipped by the frequency fill, so the property holds on such corpora too. -/
theorem c1_amended (s : CorpusState) (n : Nat) (iu : Bool)
    (hnd : (dictKeys s.type_freq_dict).Nodup)
    (hpos : 0 < n) (hle : n ≤ s.type_freq_dict.length) :
    ∃ s', create_vocab s (some n) [] [] iu = Except.ok (s', []) ∧
      s'.vocab_size = n ∧ s'.vocab_list.length = n ∧ s'.vocab_list.Nodup ∧
      s'.vocab_index_dict.map Prod.fst = s'.vocab_list ∧
      s'.vocab_index_dict.map Prod.snd = List.range n := by
  cases iu with
  | false =>
    rw [create_vocab,
      show vocabUnknownStage (clearVocab s) false = some (clearVocab s) from rfl,
      show vocabTarget (clearVocab s) (some n) false = n from rfl]
    refine create_vocab_core_spec (clearVocab s) n (clearVocab_wf s) hnd ?_ ?_ ?_
    · have h1 : (clearVocab s).vocab_list = ([] : List String) := rfl
      rw [h1]
      exact Nat.zero_le n
    · have h1 : (clearVocab s).vocab_list = ([] : List String) := rfl
      have h2 : (clearVocab s).type_freq_dict = s.type_freq_dict := rfl
      rw [h1, h2]
      have hfeq : (dictKeys s.type_freq_dict).filter
          (fun x => decide (x ∉ ([] : List String))) = dictKeys s.type_freq_dict :=
        List.filter_eq_self.mpr (fun x _ => by simp)
      rw [hfeq, dictKeys, List.length_map]
      simpa using hle
    · have h2 : (clearVocab s).type_freq_dict = s.type_freq_dict := rfl
      rw [h2]
      omega
  | true =>
    obtain ⟨u, hstage⟩ : ∃ u, vocabUnknownStage (clearVocab s) true =
        some (add_token_to_vocab { clearVocab s with unknown_token := some u } u) := by
      cases hu : s.unknown_token with
      | some u =>
        refine ⟨u, ?_⟩
        rw [vocabUnknownStage, if_pos rfl,
          show (clearVocab s).unknown_token = some u from hu]
        rfl
      | none =>
        have hfuel : ((dictKeys s.type_freq_dict).filter
            (fun k => decide (("<UNK>" : String).length ≤ k.length))).length <
            (dictKeys s.type_freq_dict).length + 1 := by
          have := (List.filter_sublist (l := dictKeys s.type_freq_dict)
            (p := fun k => decide (("<UNK>" : String).length ≤ k.length))).length_le
          omega
        obtain ⟨u, hu2, _⟩ := resolveUnknown_isSome (dictKeys s.type_freq_dict) _ _ hfuel
        refine ⟨u, ?_⟩
        rw [vocabUnknownStage, if_pos rfl,
          show (clearVocab s).unknown_token = none from hu]
        rw [show set_unknown_token (dictKeys (clearVocab s).type_freq_dict) none =
          resolveUnknown (dictKeys (clearVocab s).type_freq_dict)
            ((dictKeys (clearVocab s).type_freq_dict).length + 1) "<UNK>" from rfl]
        rw [show dictKeys (clearVocab s).type_freq_dict = dictKeys s.type_freq_dict from rfl,
          hu2]
    rw [create_vocab, hstage,
      show vocabTarget (clearVocab s) (some n) true = n from rfl]
    set s1 := add_token_to_vocab { clearVocab s with unknown_token := some u } u with hs1
    have hpre : VocabWF ({ clearVocab s with unknown_token := some u } : CorpusState) :=
      ⟨rfl, rfl, List.nodup_nil⟩
    obtain ⟨hWF1, hlist1⟩ := add_token_wf hpre (by simp [clearVocab])
    have hlist1' : s1.vocab_list = [u] := by
      rw [hs1, hlist1]
      rfl
    refine create_vocab_core_spec s1 n hWF1 hnd ?_ ?_ ?_
    · rw [hlist1']
      simpa using hpos
    · rw [hlist1']
      have h2 : s1.type_freq_dict = s.type_freq_dict := rfl
      rw [h2, List.length_singleton]
      have hcnt := filter_not_mem_singleton_length u (dictKeys s.type_freq_dict) hnd
      have hKlen : (dictKeys s.type_freq_dict).length = s.type_freq_dict.length := by
        rw [dictKeys, List.length_map]
      omega
    · have h2 : s1.type_freq_dict = s.type_freq_dict := rfl
      rw [h2]
      omega

/-- Witness for `c1_amended` on the two-type corpus `{a, b}` with target 2
and the unknown token requested. -/
theorem c1_amended_witness :
    ((dictKeys corpusAB.type_freq_dict).Nodup ∧ 0 < 2 ∧
      2 ≤ corpusAB.type_freq_dict.length) ∧
    (∃ s', create_vocab corpusAB (some 2) [] [] true = Except.ok (s', []) ∧
      s'.vocab_size = 2 ∧ s'.vocab_list.length = 2 ∧ s'.vocab_list.Nodup ∧
      s'.vocab_index_dict.map Prod.fst = s'.vocab_list ∧
      s'.vocab_index_dict.map Prod.snd = List.range 2) := by
  exact ⟨⟨by decide, by decide, by decide⟩,
    c1_amended corpusAB 2 true (by decide) (by decide) (by decide)⟩

theorem pair_unique : ∀ (d : List (String × Nat)), (dictKeys d).Nodup →
    ∀ p ∈ d, ∀ q ∈ d, p.1 = q.1 → p = q
  | [], _, p, hp, _, _, _ => absurd hp (List.not_mem_nil p)
  | x :: rest, hnd, p, hp, q, hq, hpq => by
    rw [dictKeys, List.map_cons, List.nodup_cons] at hnd
    rcases List.mem_cons.mp hp with rfl | hp' <;> rcases List.mem_cons.mp hq with rfl | hq'
    · rfl
    · exact absurd (hpq ▸ List.mem_map_of_mem Prod.fst hq') hnd.1
    · exact absurd (hpq ▸ List.mem_map_of_mem Prod.fst hp') hnd.1
    · exact pair_unique rest hnd.2 p hp' q hq' hpq

theorem keyMem_perm {d1 d2 : List (String × Nat)} (hp : List.Perm d1 d2) (k : String) :
    keyMem d1 k = keyMem d2 k := by
  cases h2 : keyMem d2 k with
  | true =>
    rw [keyMem_iff] at h2 ⊢
    exact (hp.map Prod.fst).mem_iff.mpr h2
  | false =>
    cases h1 : keyMem d1 k with
    | false => rfl
    | true =>
      rw [keyMem_iff] at h1
      have h3 : keyMem d2 k = true :=
        (keyMem_iff d2 k).mpr ((hp.map Prod.fst).mem_iff.mp h1)
      rw [h2] at h3
      cases h3

theorem lookupVal_perm {d1 d2 : List (String × Nat)} (hp : List.Perm d1 d2)
    (hnd : (dictKeys d1).Nodup) (k : String) : lookupVal d1 k = lookupVal d2 k := by
  cases h1 : List.find? (fun p => p.1 == k) d1 with
  | none =>
    have h2 : List.find? (fun p => p.1 == k) d2 = none := by
      rw [List.find?_eq_none]
      intro x hx
      exact List.find?_eq_none.mp h1 x (hp.mem_iff.mpr hx)
    rw [lookupVal, lookupVal, h1, h2]
  | some p =>
    have hpm : p ∈ d1 := List.mem_of_find?_eq_some h1
    have hpk : p.1 = k := by simpa using List.find?_some h1
    have hsome2 : (List.find? (fun p => p.1 == k) d2).isSome := by
      rw [List.find?_isSome]
      exact ⟨p, hp.mem_iff.mp hpm, by simp [hpk]⟩
    obtain ⟨q, h2⟩ := Option.isSome_iff_exists.mp hsome2
    have hqm : q ∈ d1 := hp.mem_iff.mpr (List.mem_of_find?_eq_some h2)
    have hqk : q.1 = k := by simpa using List.find?_some h2
    have : p = q := pair_unique d1 hnd p hpm q hqm (by rw [hpk, hqk])
    rw [lookupVal, lookupVal, h1, h2, this]

theorem countOf_perm {d1 d2 : List (String × Nat)} (hp : List.Perm d1 d2)
    (hnd : (dictKeys d1).Nodup) (k : String) : countOf d1 k = countOf d2 k := by
  rw [countOf, countOf, lookupVal_perm hp hnd k]

theorem sortKeys_eq {d1 d2 : List (String × Nat)} (hp : List.Perm d1 d2)
    (hnd : (dictKeys d1).Nodup) : sortKeys d1 = sortKeys d2 := by
  have hiff : ∀ a b, vocabKeyOrder d2 a b → vocabKeyOrder d1 a b := by
    intro a b h
    rw [vocabKeyOrder, countOf_perm hp hnd a, countOf_perm hp hnd b]
    exact h
  refine List.eq_of_perm_of_sorted (r := vocabKeyOrder d1) ?_
    (List.sorted_insertionSort _ _) ?_
  · exact ((sortKeys_perm d1).trans (hp.map Prod.fst)).trans (sortKeys_perm d2).symm
  · exact List.Pairwise.imp (hiff _ _) (List.sorted_insertionSort (vocabKeyOrder d2) _)

theorem removeKey_keys_nodup {d : List (String × Nat)} (hnd : (dictKeys d).Nodup)
    (k : String) : (dictKeys (removeKey d k)).Nodup := by
  refine List.Nodup.sublist ?_ hnd
  exact (List.filter_sublist d).map Prod.fst

theorem applyExclude_perm {d1 d2 : List (String × Nat)} (hp : List.Perm d1 d2) :
    ∀ exc : List String, List.Perm (applyExclude d1 exc) (applyExclude d2 exc) := by
  intro exc
  induction exc generalizing d1 d2 with
  | nil => exact hp
  | cons e rest ih =>
    rw [applyExclude, applyExclude, List.foldl_cons]
    exact ih (hp.filter _)

theorem applyExclude_keys_nodup {d : List (String × Nat)} (hnd : (dictKeys d).Nodup) :
    ∀ exc : List String, (dictKeys (applyExclude d exc)).Nodup := by
  intro exc
  induction exc generalizing d with
  | nil => exact hnd
  | cons e rest ih =>
    rw [applyExclude, List.foldl_cons]
    exact ih (removeKey_keys_nodup hnd e)

/-- Agreement on the fields the vocabulary-building stages read and write:
the three vocabulary fields and the unknown token. -/
def VFieldsEq (a b : CorpusState) : Prop :=
  a.vocab_list = b.vocab_list ∧ a.vocab_index_dict = b.vocab_index_dict ∧
  a.vocab_size = b.vocab_size ∧ a.unknown_token = b.unknown_token

theorem vfields_add_token {a b : CorpusState} (h : VFieldsEq a b) (k : String) :
    VFieldsEq (add_token_to_vocab a k) (add_token_to_vocab b k) := by
  obtain ⟨h1, h2, h3, h4⟩ := h
  refine ⟨?_, ?_, ?_, h4⟩
  · rw [add_token_to_vocab, add_token_to_vocab]
    rw [h1]
  · rw [add_token_to_vocab, add_token_to_vocab]
    rw [h2, h3]
  · rw [add_token_to_vocab, add_token_to_vocab]
    rw [h3]

theorem vfields_fill (n : Nat) : ∀ (l : List String) {a b : CorpusState},
    VFieldsEq a b → VFieldsEq (fillVocab n l a) (fillVocab n l b)
  | [], _, _, h => h
  | t :: rest, a, b, h => by
    obtain ⟨h1, h2, h3, h4⟩ := h
    rw [fillVocab, fillVocab, h2, h3]
    by_cases hn : n ≤ b.vocab_size
    · rw [if_pos hn, if_pos hn]
      exact ⟨h1, h2, h3, h4⟩
    · rw [if_neg hn, if_neg hn]
      by_cases hk : keyMem b.vocab_index_dict t
      · rw [if_pos hk, if_pos hk]
        exact vfields_fill n rest ⟨h1, h2, h3, h4⟩
      · rw [if_neg hk, if_neg hk]
        exact vfields_fill n rest (vfields_add_token ⟨h1, h2, h3, h4⟩ t)

theorem include_perm (inc : List String) :
    ∀ {a b : CorpusState} {fa fb : List (String × Nat)} (m : List String),
      VFieldsEq a b → List.Perm fa fb → (dictKeys fa).Nodup →
      VFieldsEq (inc.foldl includeStep (a, fa, m)).1 (inc.foldl includeStep (b, fb, m)).1 ∧
      List.Perm (inc.foldl includeStep (a, fa, m)).2.1
        (inc.foldl includeStep (b, fb, m)).2.1 ∧
      (dictKeys (inc.foldl includeStep (a, fa, m)).2.1).Nodup ∧
      (inc.foldl includeStep (a, fa, m)).2.2 = (inc.foldl includeStep (b, fb, m)).2.2 := by
  induction inc with
  | nil => intro a b fa fb m hv hp hnd; exact ⟨hv, hp, hnd, rfl⟩
  | cons t rest ih =>
    intro a b fa fb m hv hp hnd
    rw [List.foldl_cons, List.foldl_cons, includeStep, includeStep]
    simp only
    rw [keyMem_perm hp t]
    by_cases hk : keyMem fb t
    · rw [if_pos hk, if_pos hk]
      exact ih _ (vfields_add_token hv t) (hp.filter _) (removeKey_keys_nodup hnd t)
    · rw [if_neg hk, if_neg hk]
      exact ih _ hv hp hnd

/-- The post-unknown stages of `create_vocab` are invariant under
re-representation (permutation) of the frequency table with distinct keys:
only the projections visible to the caller are compared, since the result
state also carries the table itself. -/
theorem create_vocab_core_perm (n : Nat) (inc exc : List String) {a b : CorpusState}
    (hv : VFieldsEq a b) (hp : List.Perm a.type_freq_dict b.type_freq_dict)
    (hnd : (dictKeys a.type_freq_dict).Nodup) :
    (create_vocab_core a n inc exc).map (fun p => (vocabState p.1, p.2)) =
    (create_vocab_core b n inc exc).map (fun p => (vocabState p.1, p.2)) := by
  simp only [create_vocab_core]
  have hfp : List.Perm (applyExclude a.type_freq_dict exc) (applyExclude b.type_freq_dict exc) :=
    applyExclude_perm hp exc
  have hfnd : (dictKeys (applyExclude a.type_freq_dict exc)).Nodup :=
    applyExclude_keys_nodup hnd exc
  rw [hfp.length_eq]
  by_cases hemp : (applyExclude b.type_freq_dict exc).length = 0
  · rw [if_pos hemp, if_pos hemp]
  · rw [if_neg hemp, if_neg hemp]
    obtain ⟨hv2, hp2, hnd2, hm2⟩ := include_perm inc [] hv hfp hfnd
    have hsort : sortKeys (inc.foldl includeStep (a, applyExclude a.type_freq_dict exc, [])).2.1 =
        sortKeys (inc.foldl includeStep (b, applyExclude b.type_freq_dict exc, [])).2.1 :=
      sortKeys_eq hp2 hnd2
    rw [hm2, hv2.2.2.1, hsort]
    by_cases hsz : (inc.foldl includeStep
        (b, applyExclude b.type_freq_dict exc, [])).1.vocab_size < n
    · rw [if_pos hsz, if_pos hsz]
      obtain ⟨g1, g2, g3, g4⟩ := vfields_fill n
        (sortKeys (inc.foldl includeStep (b, applyExclude b.type_freq_dict exc, [])).2.1) hv2
      rw [Except.map, Except.map, vocabState, vocabState, g1, g2, g3, g4]
    · rw [if_neg hsz, if_neg hsz]
      rw [Except.map, Except.map, vocabState, vocabState, hv2.1, hv2.2.1, hv2.2.2.1,
        hv2.2.2.2]

theorem resolveUnknown_perm {k1 k2 : List String} (hp : List.Perm k1 k2) :
    ∀ (fuel : Nat) (cand : String), resolveUnknown k1 fuel cand = resolveUnknown k2 fuel cand
  | 0, _ => rfl
  | fuel + 1, cand => by
    rw [resolveUnknown, resolveUnknown]
    by_cases h : cand ∈ k1
    · rw [if_pos h, if_pos (hp.mem_iff.mp h)]
      exact resolveUnknown_perm hp fuel _
    · rw [if_neg h, if_neg (fun hh => h (hp.mem_iff.mpr hh))]

theorem set_unknown_token_perm {k1 k2 : List String} (hp : List.Perm k1 k2)
    (u : Option String) : set_unknown_token k1 u = set_unknown_token k2 u := by
  cases u with
  | some x => rfl
  | none =>
    rw [set_unknown_token, set_unknown_token, hp.length_eq, resolveUnknown_perm hp]

theorem create_vocab_perm (s : CorpusState) (d2 : List (String × Nat)) (vs : Option Nat)
    (inc exc : List String) (iu : Bool) (hp : List.Perm s.type_freq_dict d2)
    (hnd : (dictKeys s.type_freq_dict).Nodup) :
    (create_vocab s vs inc exc iu).map (fun p => (vocabState p.1, p.2)) =
    (create_vocab { s with type_freq_dict := d2 } vs inc exc iu).map
      (fun p => (vocabState p.1, p.2)) := by
  have htgt : vocabTarget (clearVocab s) vs iu =
      vocabTarget (clearVocab { s with type_freq_dict := d2 }) vs iu := by
    cases vs with
    | some n => rfl
    | none =>
      simp only [vocabTarget]
      rw [show (clearVocab s).type_freq_dict = s.type_freq_dict from rfl,
        show (clearVocab { s with type_freq_dict := d2 }).type_freq_dict = d2 from rfl,
        hp.length_eq]
  cases iu with
  | false =>
    rw [create_vocab, create_vocab,
      show vocabUnknownStage (clearVocab s) false = some (clearVocab s) from rfl,
      show vocabUnknownStage (clearVocab { s with type_freq_dict := d2 }) false =
        some (clearVocab { s with type_freq_dict := d2 }) from rfl, htgt]
    exact create_vocab_core_perm _ inc exc ⟨rfl, rfl, rfl, rfl⟩ hp hnd
  | true =>
    have hsu : set_unknown_token (dictKeys (clearVocab s).type_freq_dict)
        ((clearVocab s).unknown_token) =
        set_unknown_token
          (dictKeys (clearVocab { s with type_freq_dict := d2 }).type_freq_dict)
          ((clearVocab { s with type_freq_dict := d2 }).unknown_token) := by
      rw [show (clearVocab { s with type_freq_dict := d2 }).unknown_token =
        (clearVocab s).unknown_token from rfl]
      exact set_unknown_token_perm (hp.map Prod.fst) _
    cases hres : set_unknown_token (dictKeys (clearVocab s).type_freq_dict)
        ((clearVocab s).unknown_token) with
    | none =>
      have hL : vocabUnknownStage (clearVocab s) true = none := by
        rw [vocabUnknownStage, if_pos rfl, hres]
      have hR : vocabUnknownStage (clearVocab { s with type_freq_dict := d2 }) true = none := by
        rw [vocabUnknownStage, if_pos rfl, ← hsu, hres]
      rw [create_vocab, create_vocab, hL, hR]
    | some u =>
      have hL : vocabUnknownStage (clearVocab s) true =
          some (add_token_to_vocab { clearVocab s with unknown_token := some u } u) := by
        rw [vocabUnknownStage, if_pos rfl, hres]
      have hR : vocabUnknownStage (clearVocab { s with type_freq_dict := d2 }) true =
          some (add_token_to_vocab
            { clearVocab { s with type_freq_dict := d2 } with unknown_token := some u } u) := by
        rw [vocabUnknownStage, if_pos rfl, ← hsu, hres]
      rw [create_vocab, create_vocab, hL, hR, htgt]
      exact create_vocab_core_perm _ inc exc
        (vfields_add_token ⟨rfl, rfl, rfl, rfl⟩ u) hp hnd

theorem fillVocab_sublist : ∀ (l : List String) (t : CorpusState) (target : Nat),
    ∃ added, (fillVocab target l t).vocab_list = t.vocab_list ++ added ∧
      List.Sublist added l
  | [], t, target => ⟨[], by rw [fillVocab]; simp, List.nil_sublist _⟩
  | tk :: rest, t, target => by
    rw [fillVocab]
    by_cases hstop : target ≤ t.vocab_size
    · rw [if_pos hstop]
      exact ⟨[], by simp, List.nil_sublist _⟩
    · rw [if_neg hstop]
      by_cases hk : keyMem t.vocab_index_dict tk
      · rw [if_pos hk]
        obtain ⟨added, ha, hs⟩ := fillVocab_sublist rest t target
        exact ⟨added, ha, hs.trans (List.sublist_cons_self tk rest)⟩
      · rw [if_neg hk]
        obtain ⟨added, ha, hs⟩ := fillVocab_sublist rest (add_token_to_vocab t tk) target
        refine ⟨tk :: added, ?_, List.cons_sublist_cons.mpr hs⟩
        rw [ha, show (add_token_to_vocab t tk).vocab_list = t.vocab_list ++ [tk] from rfl]
        simp

/-- Claim C6: `create_vocab` is deterministic — re-representing the same
frequency table (any permutation of its distinct-keyed entries, i.e. any
dict insertion history) yields the identical vocabulary state and missing
list — and its frequency-fill step walks the remaining tokens in descending
frequency with ties broken by ascending code-point lexicographic order
(`sortKeys` is sorted under that order, the fill appends a subsequence of it
in order, and on `{b:1, a:1, c:2}` the fill order is `c, a, b`). -/
theorem c6_deterministic_fill (s : CorpusState) (d2 : List (String × Nat))
    (vs : Option Nat) (inc exc : List String) (iu : Bool)
    (hp : List.Perm s.type_freq_dict d2)
    (hnd : (dictKeys s.type_freq_dict).Nodup) :
    ((create_vocab s vs inc exc iu).map (fun p => (vocabState p.1, p.2)) =
      (create_vocab { s with type_freq_dict := d2 } vs inc exc iu).map
        (fun p => (vocabState p.1, p.2))) ∧
    (∀ d : List (String × Nat), List.Sorted (vocabKeyOrder d) (sortKeys d)) ∧
    (∀ (target : Nat) (l : List String) (t : CorpusState),
      ∃ added, (fillVocab target l t).vocab_list = t.vocab_list ++ added ∧
        List.Sublist added l) ∧
    sortKeys [("b", 1), ("a", 1), ("c", 2)] = ["c", "a", "b"] := by
  exact ⟨create_vocab_perm s d2 vs inc exc iu hp hnd,
    fun d => List.sorted_insertionSort _ _,
    fun target l t => fillVocab_sublist l t target,
    by decide⟩

/-- Witness for `c6_deterministic_fill`: the corpus over `{a, b}` against the
reversed representation of its frequency table. -/
theorem c6_deterministic_fill_witness :
    (List.Perm corpusAB.type_freq_dict [("b", 1), ("a", 1)] ∧
      (dictKeys corpusAB.type_freq_dict).Nodup) ∧
    (create_vocab corpusAB none [] [] true).map (fun p => (vocabState p.1, p.2)) =
      (create_vocab { corpusAB with type_freq_dict := [("b", 1), ("a", 1)] }
        none [] [] true).map (fun p => (vocabState p.1, p.2)) := by
  exact ⟨⟨by decide, by decide⟩,
    (c6_deterministic_fill corpusAB [("b", 1), ("a", 1)] none [] [] true
      (by decide) (by decide)).1⟩
